import Mathlib

/-! DRL-scheduler: replay memory, agent and score normalisation.

A shallow embedding of the decision core of `AnqiZong/DRL-scheduler`:

* `pkg/dqn/memory.go`  : `Event`, `Memory`, `Memory.Sample`
* `pkg/dqn/agent.go`   : `Agent`, `Agent.Remember`, `Agent.Learn`, `Agent.updateTarget`,
  `Agent.Action`, `Agent.RandomSampleAction`
* `pkg/plugin/scoringPlugin.go` : `DRLSchedulerPlugin.PreScore`,
  `DRLSchedulerPlugin.NormalizeScore`

Conventions of the embedding.

* Go `int` and `int64` values are mathematical integers (`Int`); where the source does
  arithmetic on `int64` the result is wrapped into the 64-bit range by `wrap64`.
* `float32`/`float64` values are only stored, copied and compared by the modelled code, never
  computed with; a float is represented by the rational number it denotes (`ℚ`).
* A Go runtime panic is the result `none`; a returned `error` is its message (`Except String`
  next to a result, `Option String` otherwise, `none` being `nil`).  Messages built by
  `fmt.Errorf` are kept without their formatted arguments.
* Calls that only log or track (`log.Debugf`, `a.Tracker.TrackValue`) and the reseeding of the
  random source (`rand.Seed`) are left out.
* Tensors (`*tensor.Dense`) and the neural network (`model.Model`) belong to external
  packages; the exploration schedule (`common.Schedule`) and the reward function
  (`dqn.GetReward`) are declared in files that are not among the sources.  Tensors, models and
  schedules are the type parameters `T`, `M`, `Sch`, their operations are the fields of `Env`,
  and `GetReward` is a parameter of `NormalizeScore`.
* Random draws (`rand.Perm`, `rand.Intn`, `num.RandF32`) are explicit arguments.
-/

namespace DRLScheduler

/-! ## pkg/dqn/memory.go -/

/-- Event of `memory.go`: one recorded transition.  `i` is the unexported field holding the
position of the event in the queue, filled in by `Memory.Sample`; `NewEvent` leaves it `0`. -/
structure Event (T A : Type) where
  NextState : T
  State : T
  Action : A
  Reward : ℚ
  i : Int
deriving DecidableEq, Repr

/-- NewEvent of `memory.go`. -/
def NewEvent {T A : Type} (state : T) (action : A) (reward : ℚ) (nextState : T) : Event T A :=
  { State := state, Action := action, NextState := nextState, Reward := reward, i := 0 }

/-- Memory of `memory.go`: a wrapper around `deque.Deque[Event]`.  The deque is the list of
its elements, front first. -/
structure Memory (T A : Type) where
  Deque : List (Event T A)
deriving DecidableEq, Repr

/-- NewMemory of `memory.go`: the empty deque. -/
def NewMemory {T A : Type} : Memory T A := { Deque := [] }

namespace Memory

variable {T A : Type}

/-- Len of the deque: the number of stored elements, as a Go `int`. -/
def Len (m : Memory T A) : Int := (m.Deque.length : Int)

/-- PushFront of the deque: prepends the element. -/
def PushFront (m : Memory T A) (e : Event T A) : Memory T A := { Deque := e :: m.Deque }

/-- PopBack of the deque: removes and returns the element at the back; panics (`none`) on an
empty deque. -/
def PopBack (m : Memory T A) : Option (Event T A × Memory T A) :=
  match m.Deque.getLast? with
  | none => none
  | some e => some (e, { Deque := m.Deque.dropLast })

/-- At of the deque: the element at index `i` counted from the front; panics (`none`) when the
index is out of range. -/
def At (m : Memory T A) (i : Int) : Option (Event T A) :=
  if 0 ≤ i ∧ i < m.Len then m.Deque[i.toNat]? else none

/-- The loop of `Memory.Sample`: `for i, value := range rand.Perm(m.Len())`.  `i` is the loop
index, the list is the rest of the permutation and `events` the slice built so far. -/
def sampleLoop (m : Memory T A) (batchsize : Int) :
    Nat → List Nat → List (Event T A) → Option (List (Event T A))
  | _, [], events => some events
  | i, value :: rest, events =>
    if (i : Int) ≥ batchsize then some events
    else
      match m.At (value : Int) with
      | none => none
      | some event => sampleLoop m batchsize (i + 1) rest (events ++ [{ event with i := (value : Int) }])

/-- Sample of `memory.go`.  `perm` is the value of `rand.Perm(m.Len())`.  The result is the
memory after the call together with the returned pair: `none` is a panic, `some (.error msg)`
the returned error and `some (.ok events)` the returned slice. -/
def Sample (m : Memory T A) (batchsize : Int) (perm : List Nat) :
    Memory T A × Option (Except String (List (Event T A))) :=
  if m.Len < batchsize then
    (m, some (.error "queue size is less than batch size"))
  else
    (m, (sampleLoop m batchsize 0 perm []).map .ok)

end Memory

/-! ## pkg/dqn/agent.go -/

/-- Hyperparameters of `agent.go`. -/
structure Hyperparameters (Sch : Type) where
  Gamma : ℚ
  Epsilon : Sch
  UpdateTargetSteps : Int
  BufferSize : Int
deriving DecidableEq, Repr

/-- Agent of `agent.go`.  `hyper` is the embedded `*Hyperparameters`. -/
structure Agent (T A M Sch : Type) where
  hyper : Hyperparameters Sch
  Policy : M
  TargetPolicy : M
  Epsilon : Sch
  epsilon : ℚ
  updateTargetSteps : Int
  batchSize : Int
  memory : Memory T A
  steps : Int
deriving DecidableEq, Repr

namespace Agent

variable {T A M Sch : Type}

/-- Remember of `agent.go`: push at the front, then pop the back when the length exceeds
`BufferSize`.  `none` is a panic of `PopBack`. -/
def Remember (a : Agent T A M Sch) (event : Event T A) : Option (Agent T A M Sch) :=
  let memory := a.memory.PushFront event
  if memory.Len > a.hyper.BufferSize then
    match memory.PopBack with
    | none => none
    | some (_, memory) => some { a with memory := memory }
  else
    some { a with memory := memory }

/-- A run of `Remember` calls, one per event of the list, in order. -/
def rememberAll (a : Agent T A M Sch) : List (Event T A) → Option (Agent T A M Sch)
  | [] => some a
  | e :: es =>
    match a.Remember e with
    | none => none
    | some a1 => rememberAll a1 es

/-- One call issued by `Learn` to a model: `Predict`, `FitBatch` or `CloneLearnablesTo`. -/
inductive ModelCall where
  | predict
  | fit
  | clone
deriving DecidableEq, Repr

/-- Operations of the external packages used by the agent.

* `Predict`, `FitBatch` and `CloneLearnablesTo` are the methods of `model.Model` /
  `model.Sequential`.  `FitBatch m states qValues` gives the model after the call and the
  returned error; `CloneLearnablesTo src dst` gives the destination model after the call and
  the returned error.
* `Concat` is `dense.Concat(0, ...)`, `Set` is `(*tensor.Dense).Set`, `toFloat32` the
  conversion `float32(...)`.
* `Value` is `common.Schedule.Value`: the current value of the schedule and the schedule after
  the call. -/
structure Env (T A M Sch : Type) where
  Predict : M → T → Except String T
  FitBatch : M → T → T → M × Option String
  CloneLearnablesTo : M → M → M × Option String
  Concat : List T → Except String T
  Set : T → A → ℚ → T
  toFloat32 : ℚ → ℚ
  Value : Sch → ℚ × Sch

/-- What a call of `Learn` or `updateTarget` leaves behind: the agent after the call, the
returned error (`none` is `nil`) and the model calls issued, in order. -/
structure LearnResult (T A M Sch : Type) where
  agent : Agent T A M Sch
  err : Option String
  calls : List ModelCall
deriving DecidableEq, Repr

/-- The loop of `Learn` over the sampled batch.  `batchStates` and `batchQValues` are the
slices built so far, `calls` the model calls issued so far.  A failing `Predict` returns its
error at once. -/
def learnLoop (env : Env T A M Sch) (policy : M) :
    List (Event T A) → List T → List T → List ModelCall →
      Except String (List T × List T) × List ModelCall
  | [], batchStates, batchQValues, calls => (.ok (batchStates, batchQValues), calls)
  | event :: rest, batchStates, batchQValues, calls =>
    let qUpdate := env.toFloat32 event.Reward
    match env.Predict policy event.State with
    | .error err => (.error err, calls ++ [ModelCall.predict])
    | .ok prediction =>
      let qValues := env.Set prediction event.Action qUpdate
      learnLoop env policy rest (batchStates ++ [event.State]) (batchQValues ++ [qValues])
        (calls ++ [ModelCall.predict])

/-- updateTarget of `agent.go`: clones the online model into the target model when
`a.steps % a.updateTargetSteps == 0`.  `none` is the panic of the integer division by zero. -/
def updateTarget (env : Env T A M Sch) (a : Agent T A M Sch) (calls : List ModelCall) :
    Option (LearnResult T A M Sch) :=
  if a.updateTargetSteps = 0 then none
  else if Int.tmod a.steps a.updateTargetSteps = 0 then
    match env.CloneLearnablesTo a.Policy a.TargetPolicy with
    | (target, some err) =>
      some { agent := { a with TargetPolicy := target }, err := some err,
             calls := calls ++ [ModelCall.clone] }
    | (target, none) =>
      some { agent := { a with TargetPolicy := target }, err := none,
             calls := calls ++ [ModelCall.clone] }
  else
    some { agent := a, err := none, calls := calls }

/-- Learn of `agent.go`.  `perm` is the value of `rand.Perm` inside `Memory.Sample`.  `none`
is a panic. -/
def Learn (env : Env T A M Sch) (a : Agent T A M Sch) (perm : List Nat) :
    Option (LearnResult T A M Sch) :=
  if a.memory.Len < a.batchSize then
    some { agent := a, err := none, calls := [] }
  else
    match a.memory.Sample a.batchSize perm with
    | (_, none) => none
    | (memory, some (.error err)) =>
      some { agent := { a with memory := memory }, err := some err, calls := [] }
    | (memory, some (.ok batch)) =>
      let a := { a with memory := memory }
      match learnLoop env a.Policy batch [] [] [] with
      | (.error err, calls) => some { agent := a, err := some err, calls := calls }
      | (.ok (batchStates, batchQValues), calls) =>
        match env.Concat batchStates with
        | .error err => some { agent := a, err := some err, calls := calls }
        | .ok states =>
          match env.Concat batchQValues with
          | .error err => some { agent := a, err := some err, calls := calls }
          | .ok qValues =>
            match env.FitBatch a.Policy states qValues with
            | (policy, some err) =>
              some { agent := { a with Policy := policy }, err := some err,
                     calls := calls ++ [ModelCall.fit] }
            | (policy, none) =>
              let a := { a with Policy := policy }
              let a := { a with epsilon := (env.Value a.Epsilon).1, Epsilon := (env.Value a.Epsilon).2 }
              updateTarget env a (calls ++ [ModelCall.fit])

/-- The function `rand.Intn` of the Go standard library: a value in `[0, n)` chosen by the
generator (whose raw output is `raw`), and a panic (`none`) when `n ≤ 0`. -/
def Intn (raw : Nat) (n : Int) : Option Int :=
  if n ≤ 0 then none else some ((raw : Int) % n)

/-- RandomSampleAction of `agent.go`: `rand.Intn(scoreslistLen)` with a `nil` error. -/
def RandomSampleAction (_a : Agent T A M Sch) (scoreslistLen : Int) (raw : Nat) :
    Option (Int × Option String) :=
  match Intn raw scoreslistLen with
  | none => none
  | some action => some (action, none)

/-- Action of `agent.go`.  `draw` is the value of `num.RandF32(0.0, 1.0)` and `raw` the raw
output of the generator behind `rand.Intn`.  The result `-1` means: exploit. -/
def Action (a : Agent T A M Sch) (scoreslistLen : Int) (draw : ℚ) (raw : Nat) :
    Option (Int × Option String) :=
  if draw < a.epsilon then
    a.RandomSampleAction scoreslistLen raw
  else
    some (-1, none)

end Agent

/-! ## pkg/plugin/scoringPlugin.go -/

/-- The constant `math.MaxInt64`. -/
def MaxInt64 : Int := 2 ^ 63 - 1

/-- The value of an `int64` computation whose exact result is `x`: two's complement
wrap-around into `[-2^63, 2^63)`. -/
def wrap64 (x : Int) : Int := (x + 2 ^ 63) % 2 ^ 64 - 2 ^ 63

/-- ServiceRole of `scoringPlugin.go`: the rewards observed for one role of a service. -/
structure ServiceRole where
  roleName : String
  values : List ℚ
deriving DecidableEq, Repr

/-- Service of `scoringPlugin.go`. -/
structure Service where
  serviceName : String
  roles : List ServiceRole
deriving DecidableEq, Repr

/-- DQNArgs of `scoringPlugin.go`.  The Go map `nodeMap` is an association list; a missing
key reads as `0`. -/
structure DQNArgs (T : Type) where
  state : T
  reward : ℚ
  action : Int
  nextState : T
  nodeMap : List (String × Int)
deriving DecidableEq, Repr

/-- The part of `v1.Pod` read by the plugin: `pod.ObjectMeta.Labels`. -/
structure Pod where
  Labels : List (String × String)
deriving DecidableEq, Repr

/-- One entry of `framework.NodeScoreList`. -/
structure NodeScore where
  Name : String
  Score : Int
deriving DecidableEq, Repr

/-- The `*framework.Status` returned by a plugin method: `nil` or the status made by
`framework.AsStatus` from an error. -/
inductive Status where
  | nil
  | failure (msg : String)
deriving DecidableEq, Repr

/-- DRLSchedulerPlugin of `scoringPlugin.go`, without the handles of the host framework and of
the metrics clients (`handle`, `args`). -/
structure DRLSchedulerPlugin (T A M Sch : Type) where
  DQNargs : DQNArgs T
  agent : Agent T A M Sch
  Services : List Service
deriving DecidableEq, Repr

/-- Reading a slice at a Go index: `none` is the panic of an index out of range. -/
def getAt {α : Type} (xs : List α) (i : Int) : Option α :=
  if 0 ≤ i then xs[i.toNat]? else none

/-- Writing a slice at a Go index: `none` is the panic of an index out of range. -/
def setAt {α : Type} (xs : List α) (i : Int) (x : α) : Option (List α) :=
  if 0 ≤ i ∧ i < (xs.length : Int) then some (xs.set i.toNat x) else none

/-- The search loops of `NormalizeScore`: `idx := -1; for i := range xs { if p xs[i] { idx = i;
break } }`, started at loop index `i`. -/
def findIndexFrom {α : Type} (p : α → Bool) : Nat → List α → Int
  | _, [] => -1
  | i, x :: xs => if p x then (i : Int) else findIndexFrom p (i + 1) xs

/-- The first loop of `NormalizeScore` (lines 99-107), started at loop index `i` with the
running `maxScore` and `maxIndex`. -/
def maxLoop : List NodeScore → Nat → Int → Int → Int × Int
  | [], _, maxScore, maxIndex => (maxScore, maxIndex)
  | s :: rest, i, maxScore, maxIndex =>
    if s.Score > maxScore then maxLoop rest (i + 1) s.Score (i : Int)
    else maxLoop rest (i + 1) maxScore maxIndex

/-- Lines 99-117 of `NormalizeScore`: the maximum of the raw scores, the call of
`Agent.Action` and, when it explores, the override of the chosen node.  The result is the
score list, `maxScore` and `maxIndex` at line 117; `none` is a panic, `.error` the error
returned by `Action`. -/
def selectNode {T A M Sch : Type} (agent : Agent T A M Sch) (scores : List NodeScore)
    (draw : ℚ) (raw : Nat) : Option (Except String (List NodeScore × Int × Int)) :=
  let (maxScore, maxIndex) := maxLoop scores 0 (-MaxInt64) (-1)
  match agent.Action (scores.length : Int) draw raw with
  | none => none
  | some (_, some err) => some (.error err)
  | some (index, none) =>
    if index ≠ -1 then
      let maxScore := wrap64 (maxScore + 5)
      match getAt scores index with
      | none => none
      | some node =>
        match setAt scores index { node with Score := maxScore } with
        | none => none
        | some scores => some (.ok (scores, maxScore, index))
    else
      some (.ok (scores, maxScore, maxIndex))

/-- Lines 138-153 of `NormalizeScore` with the result of every `append(...)` assigned back,
on the roles of the service found or appended before: look up the role by name, append it
when absent, and append the reward to the values of that role.  The source discards the
results of its `append` calls (see `recordRoleAsWritten`); this definition is the update the
index computations `len(...)-1` expect, and it serves to state what the lines after the
aggregator do.  The test of the search loop, written `n.Services[serviceIndex].roleName`, is
read as the `roleName` of the role at the loop index.  `none` is the panic of an index out of
range. -/
def recordRole (roles : List ServiceRole) (roleName : String) (reward : ℚ) :
    Option (List ServiceRole) :=
  let roleIndex := findIndexFrom (fun r => r.roleName == roleName) 0 roles
  let (roles, roleIndex) :=
    if roleIndex = -1 then
      let roles := roles ++ [{ roleName := roleName, values := [] }]
      (roles, (roles.length : Int) - 1)
    else (roles, roleIndex)
  match getAt roles roleIndex with
  | none => none
  | some role => setAt roles roleIndex { role with values := role.values ++ [reward] }

/-- Lines 124-153 of `NormalizeScore` with the result of every `append(...)` assigned back:
look up the service by name, append it when absent (`tmp.Name` is the field `serviceName`),
then record the reward under the role inside that service (`recordRole`).  The source
discards the results of its `append` calls (see `recordRewardAsWritten`).  `none` is the panic
of an index out of range. -/
def recordReward (Services : List Service) (serviceName roleName : String) (reward : ℚ) :
    Option (List Service) :=
  let serviceIndex := findIndexFrom (fun s => s.serviceName == serviceName) 0 Services
  let (Services, serviceIndex) :=
    if serviceIndex = -1 then
      let Services := Services ++ [{ serviceName := serviceName, roles := [] }]
      (Services, (Services.length : Int) - 1)
    else (Services, serviceIndex)
  match getAt Services serviceIndex with
  | none => none
  | some service =>
    match recordRole service.roles roleName reward with
    | none => none
    | some roles => setAt Services serviceIndex { service with roles := roles }

/-- Lines 138-153 of `NormalizeScore` as written, on the roles of the service at
`serviceIndex`.  The search loop sets `roleIndex` to the position of the first role of that
name (the test, written `n.Services[serviceIndex].roleName`, is read as the `roleName` of the
role at the loop index).  When no role is found, `append(n.Services[serviceIndex],tmp)` is an
expression whose result is discarded, so the roles stay as they are, and `roleIndex` becomes
`len(...)-1`.  The last line reads the role at `roleIndex` and discards the result of its
`append`.  Nothing is written; `none` is the panic of the index read out of range. -/
def recordRoleAsWritten (roles : List ServiceRole) (roleName : String) (_reward : ℚ) :
    Option Unit :=
  let roleIndex := findIndexFrom (fun r => r.roleName == roleName) 0 roles
  let roleIndex := if roleIndex = -1 then (roles.length : Int) - 1 else roleIndex
  match getAt roles roleIndex with
  | none => none
  | some _ => some ()

/-- Lines 124-153 of `NormalizeScore` as written.  The search loop sets `serviceIndex` to the
position of the first service of that name.  When no service is found,
`append(n.Services,tmp)` is an expression whose result is discarded, so `n.Services` stays as
it is, and `serviceIndex` becomes `len(n.Services)-1`.  Line 140 then reads
`n.Services[serviceIndex]`.  The result is the services after the lines, which are the
services before them; `none` is the panic of an index read out of range. -/
def recordRewardAsWritten (Services : List Service) (serviceName roleName : String)
    (reward : ℚ) : Option (List Service) :=
  let serviceIndex := findIndexFrom (fun s => s.serviceName == serviceName) 0 Services
  let serviceIndex := if serviceIndex = -1 then (Services.length : Int) - 1 else serviceIndex
  match getAt Services serviceIndex with
  | none => none
  | some service =>
    match recordRoleAsWritten service.roles roleName reward with
    | none => none
    | some _ => some Services

/-- The last loop of `NormalizeScore` (lines 154-156):
`scores[i].Score = int64(scores[i].Score / maxScore * 100)` in `int64` arithmetic, the
division truncating toward zero.  `none` is the panic of a division by zero. -/
def rescale : List NodeScore → Int → Option (List NodeScore)
  | [], _ => some []
  | s :: rest, maxScore =>
    if maxScore = 0 then none
    else
      match rescale rest maxScore with
      | none => none
      | some rest =>
        some ({ s with Score := wrap64 (wrap64 (Int.tdiv s.Score maxScore) * 100) } :: rest)

/-- NormalizeScore of `scoringPlugin.go`, with lines 124-153 read as `recordReward` (the
results of `append` assigned back); `NormalizeScoreAsWritten` reads them as written.
`GetReward` is `dqn.GetReward`, `draw` and `raw` are the random draws of `Agent.Action`.  The
result is the plugin and the score list after the call and the returned status; `none` is a
panic. -/
def NormalizeScore {T A M Sch : Type} (GetReward : T → List Service → Pod → ℚ)
    (n : DRLSchedulerPlugin T A M Sch) (pod : Pod) (scores : List NodeScore)
    (draw : ℚ) (raw : Nat) :
    Option (DRLSchedulerPlugin T A M Sch × List NodeScore × Status) :=
  match selectNode n.agent scores draw raw with
  | none => none
  | some (.error err) => some (n, scores, Status.failure ("sampling index of actions : " ++ err))
  | some (.ok (scores, maxScore, maxIndex)) =>
    match getAt scores maxIndex with
    | none => none
    | some node =>
      let action := (n.DQNargs.nodeMap.lookup node.Name).getD 0
      let reward := GetReward n.DQNargs.state n.Services pod
      let n := { n with DQNargs := { n.DQNargs with action := action, reward := reward } }
      match pod.Labels.lookup "servicename" with
      | none => some (n, scores, Status.failure "the pod doesn't have servicename Label")
      | some serviceName =>
        let roleName := (pod.Labels.lookup "rolename").getD ""
        match recordReward n.Services serviceName roleName n.DQNargs.reward with
        | none => none
        | some services =>
          let n := { n with Services := services }
          match rescale scores maxScore with
          | none => none
          | some scores => some (n, scores, Status.nil)

/-- NormalizeScore of `scoringPlugin.go` with lines 124-153 as written
(`recordRewardAsWritten`): the same statements as `NormalizeScore`, except that the results of
the `append` calls are discarded.  `none` is a panic. -/
def NormalizeScoreAsWritten {T A M Sch : Type} (GetReward : T → List Service → Pod → ℚ)
    (n : DRLSchedulerPlugin T A M Sch) (pod : Pod) (scores : List NodeScore)
    (draw : ℚ) (raw : Nat) :
    Option (DRLSchedulerPlugin T A M Sch × List NodeScore × Status) :=
  match selectNode n.agent scores draw raw with
  | none => none
  | some (.error err) => some (n, scores, Status.failure ("sampling index of actions : " ++ err))
  | some (.ok (scores, maxScore, maxIndex)) =>
    match getAt scores maxIndex with
    | none => none
    | some node =>
      let action := (n.DQNargs.nodeMap.lookup node.Name).getD 0
      let reward := GetReward n.DQNargs.state n.Services pod
      let n := { n with DQNargs := { n.DQNargs with action := action, reward := reward } }
      match pod.Labels.lookup "servicename" with
      | none => some (n, scores, Status.failure "the pod doesn't have servicename Label")
      | some serviceName =>
        let roleName := (pod.Labels.lookup "rolename").getD ""
        match recordRewardAsWritten n.Services serviceName roleName n.DQNargs.reward with
        | none => none
        | some services =>
          let n := { n with Services := services }
          match rescale scores maxScore with
          | none => none
          | some scores => some (n, scores, Status.nil)

/-- How a `PreScore` call ends: it returns a status, or one of its `require.NoError(err)`
lines meets an error and aborts the cycle with it. -/
inductive PreScoreOutcome where
  | returned (status : Status)
  | aborted (err : String)
deriving DecidableEq, Repr

/-- What a `PreScore` call leaves behind: the plugin after the call, the value stored in the
cycle state under `preScoreStateKey` (`none` when nothing is stored) and how the call ended. -/
structure PreScoreResult (T A M Sch : Type) where
  plugin : DRLSchedulerPlugin T A M Sch
  cycleState : Option T
  outcome : PreScoreOutcome
deriving DecidableEq, Repr

/-- PreScore of `scoringPlugin.go` (lines 62-82).  The plugin stores the integer `action` in
its events, so the action type is `Int`.  `nodes` are the names of the candidate nodes,
`nextState` is the tensor returned by `QueryClusterMetrics` (its error is not read by
`PreScore`), `perm` the value of `rand.Perm` inside `Agent.Learn`.  The test `action != -1` of
line 67 reads `n.DQNargs.action`, `new dqn.Event(...)` is `NewEvent`, and
`require.NoError(err)` aborts the cycle when `err` is not `nil`.  `none` is a panic. -/
def PreScore {T M Sch : Type} (env : Agent.Env T Int M Sch)
    (n : DRLSchedulerPlugin T Int M Sch) (cycleState : Option T) (nodes : List String)
    (nextState : T) (perm : List Nat) : Option (PreScoreResult T Int M Sch) :=
  if nodes.length = 0 then
    some { plugin := n, cycleState := cycleState, outcome := PreScoreOutcome.returned Status.nil }
  else
    let learned : Option (DRLSchedulerPlugin T Int M Sch × Option String) :=
      if n.DQNargs.action ≠ -1 then
        match n.agent.Remember
            (NewEvent n.DQNargs.state n.DQNargs.action n.DQNargs.reward nextState) with
        | none => none
        | some agent =>
          let n := { n with agent := agent, DQNargs := { n.DQNargs with state := nextState } }
          match Agent.Learn env n.agent perm with
          | none => none
          | some r => some ({ n with agent := r.agent }, r.err)
      else
        some ({ n with DQNargs := { n.DQNargs with state := nextState } }, none)
    match learned with
    | none => none
    | some (n, some err) =>
      some { plugin := n, cycleState := cycleState, outcome := PreScoreOutcome.aborted err }
    | some (n, none) =>
      match env.Predict n.agent.Policy n.DQNargs.state with
      | .error err =>
        some { plugin := n, cycleState := cycleState, outcome := PreScoreOutcome.aborted err }
      | .ok prediction =>
        some { plugin := n, cycleState := some prediction,
               outcome := PreScoreOutcome.returned Status.nil }

/-- The inputs of one `NormalizeScore` call other than the services of the Reward
Aggregator: the `DQNargs` and the agent of the plugin at the time of the call (as `PreScore`
and the calls before left them), the pod, the raw score list and the random draws of
`Agent.Action`. -/
structure Cycle (T A M Sch : Type) where
  DQNargs : DQNArgs T
  agent : Agent T A M Sch
  pod : Pod
  scores : List NodeScore
  draw : ℚ
  raw : Nat

/-- The key under which `NormalizeScore` records the reward of a pod: the values of its labels
`servicename` and `rolename` (a missing `rolename` reads as the empty string). -/
def podKey (pod : Pod) : String × String :=
  ((pod.Labels.lookup "servicename").getD "", (pod.Labels.lookup "rolename").getD "")

/-- A run of successful `NormalizeScore` calls (lines 124-153 read with the results of
`append` assigned back), one per cycle, in order.  Only
`NormalizeScore` writes `Services`, so each call finds the services left by the call before;
the other fields of the plugin are those of the cycle.  The result is the services after the
last call and, per call, the key of its pod with the reward the call observed
(`DQNargs.reward` after the call); `none` when a call panics or returns a failure status. -/
def normalizeAll {T A M Sch : Type} (GetReward : T → List Service → Pod → ℚ) :
    List Service → List (Cycle T A M Sch) → Option (List Service × List ((String × String) × ℚ))
  | Services, [] => some (Services, [])
  | Services, c :: cs =>
    match NormalizeScore GetReward
        { DQNargs := c.DQNargs, agent := c.agent, Services := Services }
        c.pod c.scores c.draw c.raw with
    | some (n1, _, Status.nil) =>
      match normalizeAll GetReward n1.Services cs with
      | some (Services2, log) => some (Services2, (podKey c.pod, n1.DQNargs.reward) :: log)
      | none => none
    | _ => none

/-! ## Reading the Reward Aggregator -/

/-- The histories held for a role name among the roles of one service, in order. -/
def roleEntries (roles : List ServiceRole) (roleName : String) : List (List ℚ) :=
  (roles.filter (fun r => r.roleName == roleName)).map (fun r => r.values)

/-- The entries the aggregator holds for the key `(serviceName, roleName)`: the history of
every role of that name inside every service of that name, in order. -/
def entries : List Service → String → String → List (List ℚ)
  | [], _, _ => []
  | s :: rest, serviceName, roleName =>
    if s.serviceName == serviceName then
      roleEntries s.roles roleName ++ entries rest serviceName roleName
    else entries rest serviceName roleName

/-- The rewards of a log recorded under the key, in the order of the log. -/
def rewardsFor (key : String × String) (log : List ((String × String) × ℚ)) : List ℚ :=
  (log.filter (fun e => e.1 == key)).map (fun e => e.2)

/-- Appending one reward to the first entry of a key, creating the entry when there is none. -/
def bump (reward : ℚ) : List (List ℚ) → List (List ℚ)
  | [] => [[reward]]
  | h :: t => (h ++ [reward]) :: t

/-- The roles of a service after recording a reward, by recursion on the list. -/
def addToRoles (roleName : String) (reward : ℚ) : List ServiceRole → List ServiceRole
  | [] => [{ roleName := roleName, values := [reward] }]
  | r :: rest =>
    if r.roleName == roleName then { r with values := r.values ++ [reward] } :: rest
    else r :: addToRoles roleName reward rest

/-- The services after recording a reward, by recursion on the list. -/
def addToServices (serviceName roleName : String) (reward : ℚ) : List Service → List Service
  | [] => [{ serviceName := serviceName, roles := [{ roleName := roleName, values := [reward] }] }]
  | s :: rest =>
    if s.serviceName == serviceName then
      { s with roles := addToRoles roleName reward s.roles } :: rest
    else s :: addToServices serviceName roleName reward rest

/-! ## Concrete inputs used by the examples -/

/-- The agent of the examples: integers for tensors, models and schedule, node names for
actions. -/
def exampleAgent (bufferSize : Int) (events : List (Event Int String)) :
    Agent Int String Int Int :=
  { hyper := { Gamma := 0, Epsilon := 0, UpdateTargetSteps := 100, BufferSize := bufferSize },
    Policy := 0, TargetPolicy := 0, Epsilon := 0, epsilon := 1, updateTargetSteps := 100,
    batchSize := 1, memory := { Deque := events }, steps := 0 }

/-- The memory built by `TestMemory` of `memory_test.go`: ten events pushed at the front, the
`i`-th with next state `[i, i+1, i+2, i+3]` and, as state, the next state of the one before
(`nil`, here `none`, for the first). -/
def testMemory : Memory (Option (List Int)) String :=
  ((List.range 10).foldl
    (fun (acc : Memory (Option (List Int)) String × Option (List Int)) (i : Nat) =>
      let s : Option (List Int) := some [(i : Int), i + 1, i + 2, i + 3]
      (acc.1.PushFront (NewEvent acc.2 "node1" 0 s), s))
    (NewMemory, none)).1

/-- External operations of the examples: a model is its weight version, `FitBatch` advances
it, `CloneLearnablesTo` copies it; no operation fails. -/
def exampleEnv : Agent.Env Int String Int Int :=
  { Predict := fun _ state => .ok state,
    FitBatch := fun m _ _ => (m + 1, none),
    CloneLearnablesTo := fun src _ => (src, none),
    Concat := fun ts => .ok ts.sum,
    Set := fun q _ _ => q,
    toFloat32 := fun r => r,
    Value := fun s => (1, s + 1) }

/-- The reward function of the examples: the number of rewards the aggregator holds. -/
def exampleReward (_state : Int) (services : List Service) (_pod : Pod) : ℚ :=
  (((services.map (fun s => (s.roles.map (fun r => r.values.length)).sum)).sum : Nat) : ℚ)

/-- A plugin as `New` leaves it (`action = -1`, `reward = 0`, no services) over three nodes,
with the given exploration probability. -/
def examplePlugin (epsilon : ℚ) : DRLSchedulerPlugin Int String Int Int :=
  { DQNargs := { state := 0, reward := 0, action := -1, nextState := 0,
                 nodeMap := [("node-a", 0), ("node-b", 1), ("node-c", 2)] },
    agent := { exampleAgent 10 [] with epsilon := epsilon },
    Services := [] }

/-- A pod of service `checkout`, role `api`. -/
def checkoutPod : Pod := { Labels := [("servicename", "checkout"), ("rolename", "api")] }

/-- A pod without the `servicename` label. -/
def unlabelledPod : Pod := { Labels := [("rolename", "api")] }

/-- A score list over the three nodes of `examplePlugin`. -/
def threeNodes (a b c : Int) : List NodeScore :=
  [{ Name := "node-a", Score := a }, { Name := "node-b", Score := b },
   { Name := "node-c", Score := c }]

/-- A cycle for `checkoutPod` over three nodes in which an agent with `epsilon = 1` explores
node 1. -/
def exampleCycle : Cycle Int String Int Int :=
  { DQNargs := (examplePlugin 1).DQNargs, agent := (examplePlugin 1).agent,
    pod := checkoutPod, scores := threeNodes 10 3 7, draw := 0, raw := 1 }

/-- The log of three runs of `exampleCycle` from the empty aggregator. -/
def exampleLog : List ((String × String) × ℚ) :=
  [(("checkout", "api"), 0), (("checkout", "api"), 1), (("checkout", "api"), 2)]

/-- The services after three runs of `exampleCycle` from the empty aggregator. -/
def exampleServices : List Service :=
  [{ serviceName := "checkout", roles := [{ roleName := "api", values := [0, 1, 2] }] }]

/-- The agent of the `PreScore` examples: as `exampleAgent`, with integer actions. -/
def prescoreAgent (events : List (Event Int Int)) : Agent Int Int Int Int :=
  { hyper := { Gamma := 0, Epsilon := 0, UpdateTargetSteps := 100, BufferSize := 10 },
    Policy := 0, TargetPolicy := 0, Epsilon := 0, epsilon := 1, updateTargetSteps := 100,
    batchSize := 1, memory := { Deque := events }, steps := 0 }

/-- A plugin for the `PreScore` examples with prior state 4, the given prior action and prior
reward 2. -/
def prescorePlugin (action : Int) (events : List (Event Int Int)) :
    DRLSchedulerPlugin Int Int Int Int :=
  { DQNargs := { state := 4, reward := 2, action := action, nextState := 0,
                 nodeMap := [("node-a", 0), ("node-b", 1), ("node-c", 2)] },
    agent := prescoreAgent events,
    Services := [] }

/-- External operations in which no call fails, for integer actions. -/
def prescoreEnv : Agent.Env Int Int Int Int :=
  { Predict := fun _ state => .ok state,
    FitBatch := fun m _ _ => (m + 1, none),
    CloneLearnablesTo := fun src _ => (src, none),
    Concat := fun ts => .ok ts.sum,
    Set := fun q _ _ => q,
    toFloat32 := fun r => r,
    Value := fun s => (1, s + 1) }

/-- External operations in which `Predict` fails. -/
def failingEnv : Agent.Env Int Int Int Int :=
  { prescoreEnv with Predict := fun _ _ => .error "shape mismatch" }

/-- A plugin whose aggregator already holds the key `("checkout", "api")` with an empty
history. -/
def seededPlugin : DRLSchedulerPlugin Int String Int Int :=
  { examplePlugin 1 with
    Services := [{ serviceName := "checkout", roles := [{ roleName := "api", values := [] }] }] }

/-! # Lemmas -/

variable {T A M Sch : Type}

/-! ## Replay memory: capacity and eviction -/

theorem Memory.PopBack_PushFront (m : Memory T A) (e : Event T A) :
    ∃ last, (m.PushFront e).PopBack = some (last, { Deque := (e :: m.Deque).dropLast }) := by
  unfold Memory.PopBack Memory.PushFront
  cases h : (e :: m.Deque).getLast? with
  | none => simp at h
  | some last => exact ⟨last, rfl⟩

/-- One `Remember` call never panics, keeps the hyperparameters and keeps the length within
the capacity when it was within the capacity before. -/
theorem Agent.Remember_step (a : Agent T A M Sch) (e : Event T A)
    (h : a.memory.Len ≤ a.hyper.BufferSize) :
    ∃ a1, a.Remember e = some a1 ∧ a1.hyper = a.hyper ∧ a1.memory.Len ≤ a1.hyper.BufferSize := by
  unfold Agent.Remember
  by_cases hgt : (a.memory.PushFront e).Len > a.hyper.BufferSize
  · obtain ⟨last, hlast⟩ := Memory.PopBack_PushFront a.memory e
    simp only [hgt, if_true, hlast]
    refine ⟨_, rfl, rfl, ?_⟩
    simp only [Memory.Len, List.length_dropLast, List.length_cons] at h ⊢
    omega
  · simp only [hgt, if_false]
    refine ⟨_, rfl, rfl, ?_⟩
    simpa using hgt

theorem Agent.rememberAll_inv (events : List (Event T A)) :
    ∀ a : Agent T A M Sch, a.memory.Len ≤ a.hyper.BufferSize →
      ∃ a1, a.rememberAll events = some a1 ∧ a1.hyper = a.hyper ∧
        a1.memory.Len ≤ a1.hyper.BufferSize := by
  induction events with
  | nil => intro a h; exact ⟨a, rfl, rfl, h⟩
  | cons e es ih =>
    intro a h
    obtain ⟨a1, h1, hh, hl⟩ := Agent.Remember_step a e h
    obtain ⟨a2, h2, hh2, hl2⟩ := ih a1 hl
    refine ⟨a2, ?_, hh2.trans hh, hl2⟩
    simp only [Agent.rememberAll, h1, h2]

/-! ## Replay memory: sampling -/

theorem Memory.At_of_lt (m : Memory T A) (v : Nat) (h : v < m.Deque.length) :
    m.At (v : Int) = some (m.Deque.get ⟨v, h⟩) := by
  unfold Memory.At Memory.Len
  have : (0 : Int) ≤ (v : Int) ∧ (v : Int) < (m.Deque.length : Int) := ⟨by omega, by omega⟩
  rw [if_pos this]
  simp [List.getElem?_eq_getElem h]

/-- The sampling loop started at loop index `i` on in-range positions: it does not panic, it
appends one event per position among the first `batchsize - i` positions, each tagged with
its position and otherwise equal to the entry of the memory at that position. -/
theorem Memory.sampleLoop_spec (m : Memory T A) (batchsize : Int) :
    ∀ (perm : List Nat) (i : Nat) (events : List (Event T A)),
      (∀ v ∈ perm, v < m.Deque.length) →
      ∃ out, Memory.sampleLoop m batchsize i perm events = some (events ++ out) ∧
        out.map (fun ev => ev.i) = (perm.take (batchsize - i).toNat).map Int.ofNat ∧
        ∀ ev ∈ out, ∃ e0, m.At ev.i = some e0 ∧ ev = { e0 with i := ev.i } := by
  intro perm
  induction perm with
  | nil =>
    intro i events _
    exact ⟨[], by simp [Memory.sampleLoop], by simp, by simp⟩
  | cons v rest ih =>
    intro i events hv
    by_cases hge : (i : Int) ≥ batchsize
    · refine ⟨[], by simp [Memory.sampleLoop, hge], ?_, by simp⟩
      have : (batchsize - (i : Int)).toNat = 0 := by omega
      simp [this]
    · have hvlt : v < m.Deque.length := hv v (List.mem_cons_self _ _)
      obtain ⟨out, hout, hmap, hall⟩ :=
        ih (i + 1) (events ++ [{ m.Deque.get ⟨v, hvlt⟩ with i := (v : Int) }])
          (fun w hw => hv w (List.mem_cons_of_mem _ hw))
      refine ⟨{ m.Deque.get ⟨v, hvlt⟩ with i := (v : Int) } :: out, ?_, ?_, ?_⟩
      · simp only [Memory.sampleLoop, hge, if_false, Memory.At_of_lt m v hvlt]
        rw [hout]
        simp
      · have hk : (batchsize - (i : Int)).toNat = (batchsize - ((i + 1 : Nat) : Int)).toNat + 1 := by
          omega
        rw [hk, List.take_succ_cons, List.map_cons, List.map_cons, hmap]
        rfl
      · intro ev hev
        rcases List.mem_cons.mp hev with rfl | hmem
        · exact ⟨m.Deque.get ⟨v, hvlt⟩, Memory.At_of_lt m v hvlt, rfl⟩
        · exact hall ev hmem

/-! ## Learning step -/

theorem Agent.updateTarget_steps (env : Agent.Env T A M Sch) (a : Agent T A M Sch)
    (calls : List Agent.ModelCall) (r : Agent.LearnResult T A M Sch)
    (h : Agent.updateTarget env a calls = some r) : r.agent.steps = a.steps := by
  unfold Agent.updateTarget at h
  split at h
  · simp at h
  · split at h
    · split at h <;> (simp only [Option.some.injEq] at h; subst h; rfl)
    · simp only [Option.some.injEq] at h; subst h; rfl

/-- No path through `Learn` changes the step counter. -/
theorem Agent.Learn_steps (env : Agent.Env T A M Sch) (a : Agent T A M Sch) (perm : List Nat)
    (r : Agent.LearnResult T A M Sch) (h : Agent.Learn env a perm = some r) :
    r.agent.steps = a.steps := by
  unfold Agent.Learn at h
  split at h
  · simp only [Option.some.injEq] at h; subst h; rfl
  · split at h
    · simp at h
    · simp only [Option.some.injEq] at h; subst h; rfl
    · simp only at h
      split at h
      · simp only [Option.some.injEq] at h; subst h; rfl
      · split at h
        · simp only [Option.some.injEq] at h; subst h; rfl
        · split at h
          · simp only [Option.some.injEq] at h; subst h; rfl
          · split at h
            · simp only [Option.some.injEq] at h; subst h; rfl
            · have h2 := Agent.updateTarget_steps env _ _ r h
              exact h2
/-- With the step counter at 0 (where `Learn` leaves it), `updateTarget` clones the online
model into the target model whatever the non-zero interval. -/
theorem Agent.updateTarget_at_zero (env : Agent.Env T A M Sch) (a : Agent T A M Sch)
    (calls : List Agent.ModelCall) (h0 : a.steps = 0) (hne : a.updateTargetSteps ≠ 0) :
    ∃ r, Agent.updateTarget env a calls = some r ∧
      r.calls = calls ++ [Agent.ModelCall.clone] ∧
      r.agent.TargetPolicy = (env.CloneLearnablesTo a.Policy a.TargetPolicy).1 := by
  unfold Agent.updateTarget
  rw [if_neg hne, h0, if_pos (by simp)]
  split <;> rename_i heq <;> exact ⟨_, rfl, rfl, by simp [heq]⟩

/-! ## Score list: maximum and indices -/

/-- The first loop of `NormalizeScore`: the returned maximum bounds the start value and every
score; either nothing exceeded the start value and start value and index are returned, or the
returned index is a position of the list (shifted by the start index) holding the returned
maximum. -/
theorem maxLoop_spec (scores : List NodeScore) :
    ∀ (i : Nat) (ms mi : Int),
      ms ≤ (maxLoop scores i ms mi).1 ∧
      (∀ s ∈ scores, s.Score ≤ (maxLoop scores i ms mi).1) ∧
      (((maxLoop scores i ms mi).1 = ms ∧ (maxLoop scores i ms mi).2 = mi) ∨
        ∃ k node, scores[k]? = some node ∧ (maxLoop scores i ms mi).2 = ((i + k : Nat) : Int) ∧
          node.Score = (maxLoop scores i ms mi).1) := by
  induction scores with
  | nil => intro i ms mi; simp [maxLoop]
  | cons s rest ih =>
    intro i ms mi
    by_cases hgt : s.Score > ms
    · obtain ⟨h1, h2, h3⟩ := ih (i + 1) s.Score (i : Int)
      simp only [maxLoop, hgt, if_true]
      refine ⟨by omega, ?_, ?_⟩
      · intro t ht
        rcases List.mem_cons.mp ht with rfl | hmem
        · exact h1
        · exact h2 t hmem
      · right
        rcases h3 with ⟨he, hi⟩ | ⟨k, node, hk, hi, hs⟩
        · exact ⟨0, s, by simp, by simpa using hi, he.symm⟩
        · exact ⟨k + 1, node, by simpa using hk, by rw [hi]; push_cast; omega, hs⟩
    · obtain ⟨h1, h2, h3⟩ := ih (i + 1) ms mi
      simp only [maxLoop, hgt, if_false]
      refine ⟨h1, ?_, ?_⟩
      · intro t ht
        rcases List.mem_cons.mp ht with rfl | hmem
        · omega
        · exact h2 t hmem
      · rcases h3 with h | ⟨k, node, hk, hi, hs⟩
        · exact Or.inl h
        · exact Or.inr ⟨k + 1, node, by simpa using hk, by rw [hi]; push_cast; omega, hs⟩

/-- When some score exceeds the start value, the index returned by the first loop is a
position of the list. -/
theorem maxLoop_snd_valid (scores : List NodeScore) (ms mi : Int)
    (h : ∃ s ∈ scores, s.Score > ms) :
    ∃ node, getAt scores (maxLoop scores 0 ms mi).2 = some node := by
  obtain ⟨_, h2, h3⟩ := maxLoop_spec scores 0 ms mi
  obtain ⟨s, hs, hgt⟩ := h
  have := h2 s hs
  rcases h3 with ⟨he, _⟩ | ⟨k, node, hk, hi, _⟩
  · omega
  · refine ⟨node, ?_⟩
    unfold getAt
    rw [hi]
    simpa using hk

/-- The value drawn by `rand.Intn(n)` for `n > 0` lies in `[0, n)`. -/
theorem Intn_range (raw : Nat) (n : Int) (hn : 0 < n) :
    ∃ i, Agent.Intn raw n = some i ∧ 0 ≤ i ∧ i < n := by
  refine ⟨(raw : Int) % n, ?_, Int.emod_nonneg _ (by omega), Int.emod_lt_of_pos _ hn⟩
  unfold Agent.Intn
  rw [if_neg (by omega)]
/-! ## Reward Aggregator -/

/-- The search loop either finds nothing (`-1`, no element satisfies the test) or returns the
position of the first element satisfying the test. -/
theorem findIndexFrom_spec {α : Type} (p : α → Bool) (xs : List α) :
    ∀ i : Nat, (findIndexFrom p i xs = -1 ∧ ∀ x ∈ xs, p x = false) ∨
      ∃ pre x post, xs = pre ++ x :: post ∧ (∀ y ∈ pre, p y = false) ∧ p x = true ∧
        findIndexFrom p i xs = ((i + pre.length : Nat) : Int) := by
  induction xs with
  | nil => intro i; left; simp [findIndexFrom]
  | cons x rest ih =>
    intro i
    by_cases hp : p x = true
    · right
      exact ⟨[], x, rest, rfl, by simp, hp, by simp [findIndexFrom, hp]⟩
    · have hpf : p x = false := by simpa using hp
      rcases ih (i + 1) with ⟨h1, h2⟩ | ⟨pre, y, post, hxs, hpre, hy, hidx⟩
      · left
        refine ⟨by simp [findIndexFrom, hpf, h1], ?_⟩
        intro z hz
        rcases List.mem_cons.mp hz with rfl | hmem
        · exact hpf
        · exact h2 z hmem
      · right
        refine ⟨x :: pre, y, post, by simp [hxs], ?_, hy, ?_⟩
        · intro z hz
          rcases List.mem_cons.mp hz with rfl | hmem
          · exact hpf
          · exact hpre z hmem
        · simp only [findIndexFrom, hpf, hidx, List.length_cons]
          simp
          omega

theorem getAt_append_length {α : Type} (pre post : List α) (x : α) :
    getAt (pre ++ x :: post) (pre.length : Int) = some x := by
  unfold getAt
  rw [if_pos (by omega), Int.toNat_ofNat, List.getElem?_append_right (le_refl _)]
  simp

theorem setAt_append_length {α : Type} (pre post : List α) (x y : α) :
    setAt (pre ++ x :: post) (pre.length : Int) y = some (pre ++ y :: post) := by
  unfold setAt
  rw [if_pos (by simp)]
  simp

theorem addToRoles_not_found (roleName : String) (reward : ℚ) (roles : List ServiceRole)
    (h : ∀ r ∈ roles, (r.roleName == roleName) = false) :
    addToRoles roleName reward roles = roles ++ [{ roleName := roleName, values := [reward] }] := by
  induction roles with
  | nil => rfl
  | cons r rest ih =>
    have hr := h r (List.mem_cons_self _ _)
    simp only [addToRoles, hr, List.cons_append]
    rw [ih (fun x hx => h x (List.mem_cons_of_mem _ hx))]
    simp

theorem addToRoles_found (roleName : String) (reward : ℚ) (pre post : List ServiceRole)
    (r : ServiceRole) (h : ∀ x ∈ pre, (x.roleName == roleName) = false)
    (hr : (r.roleName == roleName) = true) :
    addToRoles roleName reward (pre ++ r :: post) =
      pre ++ { r with values := r.values ++ [reward] } :: post := by
  induction pre with
  | nil => simp [addToRoles, hr]
  | cons x rest ih =>
    have hx := h x (List.mem_cons_self _ _)
    rw [List.cons_append, addToRoles, if_neg (by simp [hx]),
      ih (fun y hy => h y (List.mem_cons_of_mem _ hy))]
    rfl

/-- The index-based update of the roles never panics and computes `addToRoles`. -/
theorem recordRole_eq (roles : List ServiceRole) (roleName : String) (reward : ℚ) :
    recordRole roles roleName reward = some (addToRoles roleName reward roles) := by
  unfold recordRole
  rcases findIndexFrom_spec (fun r : ServiceRole => r.roleName == roleName) roles 0 with
    ⟨h1, h2⟩ | ⟨pre, r, post, hxs, hpre, hr, hidx⟩
  · simp only [h1, if_true]
    have hlen : (((roles ++ [({ roleName := roleName, values := [] } : ServiceRole)]).length : Int) - 1)
        = (roles.length : Int) := by simp
    rw [hlen, getAt_append_length]
    dsimp only
    rw [setAt_append_length, addToRoles_not_found _ _ _ h2]
    rfl
  · have hne : ¬ (findIndexFrom (fun r : ServiceRole => r.roleName == roleName) 0 roles = -1) := by
      rw [hidx]; omega
    simp only [hne, if_false]
    rw [hidx]
    subst hxs
    simp only [Nat.zero_add]
    rw [getAt_append_length]
    dsimp only
    rw [setAt_append_length, addToRoles_found _ _ _ _ _ hpre hr]

theorem addToServices_not_found (serviceName roleName : String) (reward : ℚ)
    (Services : List Service) (h : ∀ s ∈ Services, (s.serviceName == serviceName) = false) :
    addToServices serviceName roleName reward Services =
      Services ++ [{ serviceName := serviceName,
                     roles := [{ roleName := roleName, values := [reward] }] }] := by
  induction Services with
  | nil => rfl
  | cons s rest ih =>
    have hs := h s (List.mem_cons_self _ _)
    simp only [addToServices, hs, List.cons_append]
    rw [ih (fun x hx => h x (List.mem_cons_of_mem _ hx))]
    simp

theorem addToServices_found (serviceName roleName : String) (reward : ℚ)
    (pre post : List Service) (s : Service)
    (h : ∀ x ∈ pre, (x.serviceName == serviceName) = false)
    (hs : (s.serviceName == serviceName) = true) :
    addToServices serviceName roleName reward (pre ++ s :: post) =
      pre ++ { s with roles := addToRoles roleName reward s.roles } :: post := by
  induction pre with
  | nil => simp [addToServices, hs]
  | cons x rest ih =>
    have hx := h x (List.mem_cons_self _ _)
    rw [List.cons_append, addToServices, if_neg (by simp [hx]),
      ih (fun y hy => h y (List.mem_cons_of_mem _ hy))]
    rfl

/-- The index-based update of the aggregator never panics and computes `addToServices`. -/
theorem recordReward_eq (Services : List Service) (serviceName roleName : String) (reward : ℚ) :
    recordReward Services serviceName roleName reward =
      some (addToServices serviceName roleName reward Services) := by
  unfold recordReward
  rcases findIndexFrom_spec (fun s : Service => s.serviceName == serviceName) Services 0 with
    ⟨h1, h2⟩ | ⟨pre, s, post, hxs, hpre, hs, hidx⟩
  · simp only [h1, if_true]
    have hlen : (((Services ++ [({ serviceName := serviceName, roles := [] } : Service)]).length : Int) - 1)
        = (Services.length : Int) := by simp
    rw [hlen, getAt_append_length]
    simp only [recordRole_eq]
    rw [setAt_append_length, addToServices_not_found _ _ _ _ h2]
    rfl
  · have hne : ¬ (findIndexFrom (fun s : Service => s.serviceName == serviceName) 0 Services = -1) := by
      rw [hidx]; omega
    simp only [hne, if_false]
    rw [hidx]
    subst hxs
    simp only [Nat.zero_add]
    rw [getAt_append_length]
    simp only [recordRole_eq]
    rw [setAt_append_length, addToServices_found _ _ _ _ _ _ hpre hs]
theorem roleEntries_addToRoles (roleName roleName' : String) (reward : ℚ)
    (roles : List ServiceRole) :
    roleEntries (addToRoles roleName reward roles) roleName' =
      if roleName' = roleName then bump reward (roleEntries roles roleName)
      else roleEntries roles roleName' := by
  induction roles with
  | nil =>
    by_cases h : roleName' = roleName
    · subst h; simp [addToRoles, roleEntries, bump]
    · have h' : ¬ roleName = roleName' := fun e => h e.symm
      simp [addToRoles, roleEntries, h, h']
  | cons r rest ih =>
    by_cases hr : r.roleName = roleName
    · by_cases h : roleName' = roleName
      · subst h; simp [addToRoles, roleEntries, bump, hr]
      · have h' : ¬ roleName = roleName' := fun e => h e.symm
        simp [addToRoles, roleEntries, hr, h, h']
    · have hstep : roleEntries (addToRoles roleName reward (r :: rest)) roleName' =
          (if r.roleName = roleName' then [r.values] else []) ++
            roleEntries (addToRoles roleName reward rest) roleName' := by
        by_cases h2 : r.roleName = roleName'
        · subst h2; simp [addToRoles, roleEntries, hr]
        · simp [addToRoles, roleEntries, hr, h2]
      rw [hstep, ih]
      by_cases h : roleName' = roleName
      · subst h; simp [roleEntries, hr]
      · by_cases h2 : r.roleName = roleName' <;> simp [roleEntries, h, h2]

theorem entries_eq_nil (Services : List Service) (serviceName roleName : String)
    (h : serviceName ∉ Services.map (fun s => s.serviceName)) :
    entries Services serviceName roleName = [] := by
  induction Services with
  | nil => rfl
  | cons s rest ih =>
    simp only [List.map_cons, List.mem_cons, not_or] at h
    have hs : ¬ s.serviceName = serviceName := fun e => h.1 e.symm
    simp [entries, hs, ih h.2]

theorem mem_names_addToServices (serviceName roleName : String) (reward : ℚ)
    (Services : List Service) (name : String)
    (h : name ∈ (addToServices serviceName roleName reward Services).map (fun s => s.serviceName)) :
    name ∈ Services.map (fun s => s.serviceName) ∨ name = serviceName := by
  induction Services with
  | nil => right; simpa [addToServices] using h
  | cons s rest ih =>
    by_cases hs : s.serviceName = serviceName
    · left; simpa [addToServices, hs] using h
    · simp only [addToServices, beq_iff_eq, hs, if_false, List.map_cons, List.mem_cons] at h
      rcases h with h | h
      · left; simp [h]
      · rcases ih h with h | h
        · left; simp [h]
        · right; exact h

/-- Recording a reward keeps the service names pairwise distinct. -/
theorem nodup_names_addToServices (serviceName roleName : String) (reward : ℚ)
    (Services : List Service) (h : (Services.map (fun s => s.serviceName)).Nodup) :
    ((addToServices serviceName roleName reward Services).map (fun s => s.serviceName)).Nodup := by
  induction Services with
  | nil => simp [addToServices]
  | cons s rest ih =>
    rw [List.map_cons, List.nodup_cons] at h
    by_cases hs : s.serviceName = serviceName
    · simpa [addToServices, hs] using h
    · simp only [addToServices, beq_iff_eq, hs, if_false, List.map_cons, List.nodup_cons]
      refine ⟨?_, ih h.2⟩
      intro hmem
      rcases mem_names_addToServices _ _ _ _ _ hmem with h1 | h1
      · exact h.1 h1
      · exact hs h1

/-- With pairwise distinct service names, recording a reward under a key appends it to the
first entry of that key (creating the entry when there is none) and leaves the entries of
every other key as they were. -/
theorem entries_addToServices (serviceName roleName : String) (reward : ℚ)
    (Services : List Service) (h : (Services.map (fun s => s.serviceName)).Nodup)
    (serviceName' roleName' : String) :
    entries (addToServices serviceName roleName reward Services) serviceName' roleName' =
      if serviceName' = serviceName ∧ roleName' = roleName then
        bump reward (entries Services serviceName roleName)
      else entries Services serviceName' roleName' := by
  induction Services with
  | nil =>
    by_cases h1 : serviceName' = serviceName
    · subst h1
      by_cases h2 : roleName' = roleName
      · subst h2; simp [addToServices, entries, roleEntries, bump]
      · have h2' : ¬ roleName = roleName' := fun e => h2 e.symm
        simp [addToServices, entries, roleEntries, h2, h2']
    · have h1' : ¬ serviceName = serviceName' := fun e => h1 e.symm
      simp [addToServices, entries, h1, h1']
  | cons s rest ih =>
    rw [List.map_cons, List.nodup_cons] at h
    by_cases hs : s.serviceName = serviceName
    · have hnil : ∀ r, entries rest serviceName r = [] := fun r =>
        entries_eq_nil rest serviceName r (hs ▸ h.1)
      by_cases h1 : serviceName' = serviceName
      · subst h1
        simp only [addToServices, entries, beq_iff_eq, hs, if_true, hnil, List.append_nil,
          roleEntries_addToRoles, true_and]
      · have h1' : ¬ serviceName = serviceName' := fun e => h1 e.symm
        simp [addToServices, entries, hs, h1, h1']
    · have hstep : entries (addToServices serviceName roleName reward (s :: rest))
            serviceName' roleName' =
          (if s.serviceName = serviceName' then roleEntries s.roles roleName' else []) ++
            entries (addToServices serviceName roleName reward rest) serviceName' roleName' := by
        by_cases h2 : s.serviceName = serviceName'
        · subst h2; simp [addToServices, entries, hs]
        · simp [addToServices, entries, hs, h2]
      rw [hstep, ih h.2]
      by_cases hk : serviceName' = serviceName ∧ roleName' = roleName
      · obtain ⟨h1, h2⟩ := hk
        subst h1; subst h2
        simp [entries, hs]
      · by_cases h2 : s.serviceName = serviceName' <;> simp [entries, hk, h2]
/-! ## NormalizeScore -/

/-- On raw scores between 0 and a positive `maxScore`, the rescaling loop leaves 100 at the
nodes holding `maxScore` and 0 at the others. -/
theorem rescale_nonneg (scores : List NodeScore) (maxScore : Int) (hpos : 0 < maxScore)
    (hrange : ∀ s ∈ scores, 0 ≤ s.Score ∧ s.Score ≤ maxScore) :
    ∃ out, rescale scores maxScore = some out ∧
      ∀ s ∈ out, s.Score = 0 ∨ s.Score = 100 := by
  induction scores with
  | nil => exact ⟨[], rfl, by simp⟩
  | cons s rest ih =>
    obtain ⟨out, hout, hall⟩ := ih (fun x hx => hrange x (List.mem_cons_of_mem _ hx))
    obtain ⟨h0, h1⟩ := hrange s (List.mem_cons_self _ _)
    refine ⟨{ s with Score := wrap64 (wrap64 (Int.tdiv s.Score maxScore) * 100) } :: out, ?_, ?_⟩
    · simp only [rescale, if_neg (ne_of_gt hpos), hout]
    · intro x hx
      rcases List.mem_cons.mp hx with rfl | hmem
      · by_cases heq : s.Score = maxScore
        · right
          have : Int.tdiv s.Score maxScore = 1 := by
            rw [heq]; exact Int.tdiv_self (ne_of_gt hpos)
          simp only [this]
          decide
        · left
          have : Int.tdiv s.Score maxScore = 0 :=
            Int.tdiv_eq_zero_of_lt h0 (lt_of_le_of_ne h1 heq)
          simp only [this]
          decide
      · exact hall x hmem

/-- Lines 99-117 when the agent exploits: the score list is untouched. -/
theorem selectNode_exploit (agent : Agent T A M Sch) (scores : List NodeScore) (draw : ℚ)
    (raw : Nat) (h : ¬ draw < agent.epsilon) :
    selectNode agent scores draw raw =
      some (.ok (scores, (maxLoop scores 0 (-MaxInt64) (-1)).1,
        (maxLoop scores 0 (-MaxInt64) (-1)).2)) := by
  unfold selectNode Agent.Action
  rw [if_neg h]
  simp

/-- Lines 99-117 when the agent explores a non-empty list: `Action` returns an index `i` of
the list and the score of node `i` is overwritten with `maxScore + 5` in `int64`. -/
theorem selectNode_explore (agent : Agent T A M Sch) (scores : List NodeScore) (draw : ℚ)
    (raw : Nat) (h : draw < agent.epsilon) (hne : scores ≠ []) :
    ∃ i node, agent.Action (scores.length : Int) draw raw = some (i, none) ∧
      0 ≤ i ∧ i < (scores.length : Int) ∧ getAt scores i = some node ∧
      selectNode agent scores draw raw =
        some (.ok (scores.set i.toNat
            { node with Score := wrap64 ((maxLoop scores 0 (-MaxInt64) (-1)).1 + 5) },
          wrap64 ((maxLoop scores 0 (-MaxInt64) (-1)).1 + 5), i)) := by
  have hlen : (0 : Int) < (scores.length : Int) := by
    have := List.length_pos.mpr hne
    omega
  obtain ⟨i, hi, h0, h1⟩ := Intn_range raw (scores.length : Int) hlen
  have hact : agent.Action (scores.length : Int) draw raw = some (i, none) := by
    unfold Agent.Action Agent.RandomSampleAction
    rw [if_pos h, hi]
  have hlt : i.toNat < scores.length := by omega
  have hget : getAt scores i = some (scores.get ⟨i.toNat, hlt⟩) := by
    unfold getAt
    rw [if_pos h0]
    simp [List.getElem?_eq_getElem hlt]
  refine ⟨i, scores.get ⟨i.toNat, hlt⟩, hact, h0, h1, hget, ?_⟩
  unfold selectNode
  have hne1 : i ≠ -1 := by omega
  simp only [hact, hne1, ne_eq, not_false_eq_true, if_true, hget]
  unfold setAt
  rw [if_pos ⟨h0, h1⟩]

/-- The rest of `NormalizeScore` (lines 118-157) once lines 99-117 have chosen an index that
is a position of the list. -/
theorem NormalizeScore_eq (GetReward : T → List Service → Pod → ℚ)
    (n : DRLSchedulerPlugin T A M Sch) (pod : Pod) (scores : List NodeScore) (draw : ℚ)
    (raw : Nat) (sc : List NodeScore) (ms mi : Int) (node : NodeScore)
    (hsel : selectNode n.agent scores draw raw = some (.ok (sc, ms, mi)))
    (hnode : getAt sc mi = some node) :
    NormalizeScore GetReward n pod scores draw raw =
      match pod.Labels.lookup "servicename" with
      | none =>
        some ({ n with DQNargs := { n.DQNargs with
                  action := (n.DQNargs.nodeMap.lookup node.Name).getD 0,
                  reward := GetReward n.DQNargs.state n.Services pod } },
              sc, Status.failure "the pod doesn't have servicename Label")
      | some serviceName =>
        match rescale sc ms with
        | none => none
        | some out =>
          some ({ n with
                  DQNargs := { n.DQNargs with
                    action := (n.DQNargs.nodeMap.lookup node.Name).getD 0,
                    reward := GetReward n.DQNargs.state n.Services pod },
                  Services := addToServices serviceName ((pod.Labels.lookup "rolename").getD "")
                    (GetReward n.DQNargs.state n.Services pod) n.Services },
                out, Status.nil) := by
  unfold NormalizeScore
  simp only [hsel, hnode, recordReward_eq]

/-- A successful `NormalizeScore` call leaves the agent as it was and records the observed
reward under the key of the pod, which carries the `servicename` label. -/
theorem NormalizeScore_success (GetReward : T → List Service → Pod → ℚ)
    (n n1 : DRLSchedulerPlugin T A M Sch) (pod : Pod) (scores sc1 : List NodeScore) (draw : ℚ)
    (raw : Nat)
    (h : NormalizeScore GetReward n pod scores draw raw = some (n1, sc1, Status.nil)) :
    n1.agent = n.agent ∧
    n1.Services = addToServices (podKey pod).1 (podKey pod).2 n1.DQNargs.reward n.Services := by
  unfold NormalizeScore at h
  split at h
  · simp at h
  · simp at h
  · split at h
    · simp at h
    · simp only at h
      split at h
      · simp at h
      · rename_i serviceName hlab
        rw [recordReward_eq] at h
        simp only at h
        split at h
        · simp at h
        · simp only [Option.some.injEq, Prod.mk.injEq, and_true] at h
          obtain ⟨h1, _⟩ := h
          subst h1
          simp [podKey, hlab]
theorem foldl_bump_cons (hist : List ℚ) :
    ∀ (h : List ℚ) (t : List (List ℚ)),
      hist.foldl (fun E v => bump v E) (h :: t) = (h ++ hist) :: t := by
  induction hist with
  | nil => intro h t; simp
  | cons v rest ih =>
    intro h t
    rw [List.foldl_cons]
    show rest.foldl (fun E v => bump v E) ((h ++ [v]) :: t) = (h ++ v :: rest) :: t
    rw [ih]
    simp

theorem foldl_bump_nil (hist : List ℚ) (hne : hist ≠ []) :
    hist.foldl (fun E v => bump v E) [] = [hist] := by
  cases hist with
  | nil => exact absurd rfl hne
  | cons v rest =>
    rw [List.foldl_cons]
    show rest.foldl (fun E v => bump v E) [[v]] = [v :: rest]
    rw [foldl_bump_cons]
    simp

/-- A run of successful `NormalizeScore` calls from services with pairwise distinct names:
the log lists the keys of the pods in order, and the entries of every key are the entries
before the run with the rewards of the log recorded under that key appended one by one. -/
theorem normalizeAll_spec (GetReward : T → List Service → Pod → ℚ)
    (cycles : List (Cycle T A M Sch)) :
    ∀ (Services Services1 : List Service) (log : List ((String × String) × ℚ)),
      normalizeAll GetReward Services cycles = some (Services1, log) →
      (Services.map (fun s => s.serviceName)).Nodup →
      log.map (fun e => e.1) = cycles.map (fun c => podKey c.pod) ∧
      ∀ key : String × String,
        entries Services1 key.1 key.2 =
          (rewardsFor key log).foldl (fun E v => bump v E) (entries Services key.1 key.2) := by
  induction cycles with
  | nil =>
    intro Services Services1 log h _
    simp only [normalizeAll, Option.some.injEq, Prod.mk.injEq] at h
    obtain ⟨rfl, rfl⟩ := h
    simp [rewardsFor]
  | cons c cs ih =>
    intro Services Services1 log h hnd
    unfold normalizeAll at h
    split at h
    · rename_i n2 sc2 hcall
      split at h
      · rename_i Services3 log3 hrest
        simp only [Option.some.injEq, Prod.mk.injEq] at h
        obtain ⟨rfl, rfl⟩ := h
        obtain ⟨_, hsv⟩ := NormalizeScore_success GetReward _ n2 c.pod c.scores sc2 c.draw c.raw hcall
        simp only at hsv
        have hnd2 : (n2.Services.map (fun s => s.serviceName)).Nodup := by
          rw [hsv]; exact nodup_names_addToServices _ _ _ _ hnd
        obtain ⟨hkeys, hent⟩ := ih n2.Services Services3 log3 hrest hnd2
        refine ⟨by simp [hkeys], ?_⟩
        intro key
        rw [hent key, hsv, entries_addToServices _ _ _ _ hnd]
        by_cases hk : podKey c.pod = key
        · subst hk
          simp [rewardsFor]
        · have hk2 : ¬ (key.1 = (podKey c.pod).1 ∧ key.2 = (podKey c.pod).2) := by
            intro ⟨h1, h2⟩
            exact hk (Prod.ext h1.symm h2.symm)
          simp [rewardsFor, hk, hk2]
      · simp at h
    · simp at h
/-! ## PreScore -/

/-- One `Remember` call never panics: it leaves the event followed by the old contents,
without their last element when the length has exceeded the capacity. -/
theorem Agent.Remember_eq (a : Agent T A M Sch) (e : Event T A) :
    a.Remember e = some { a with memory :=
      { Deque := if a.memory.Len + 1 > a.hyper.BufferSize then (e :: a.memory.Deque).dropLast
                 else e :: a.memory.Deque } } := by
  have hlen : (a.memory.PushFront e).Len = a.memory.Len + 1 := by
    simp [Memory.Len, Memory.PushFront]
  obtain ⟨last, hlast⟩ := Memory.PopBack_PushFront a.memory e
  unfold Agent.Remember
  by_cases hgt : a.memory.Len + 1 > a.hyper.BufferSize
  · simp only [hlen, hgt, if_true, hlast]
  · simp only [hlen, hgt, if_false]
    rfl

theorem Agent.updateTarget_isSome (env : Agent.Env T A M Sch) (a : Agent T A M Sch)
    (calls : List Agent.ModelCall) (hne : a.updateTargetSteps ≠ 0) :
    ∃ r, Agent.updateTarget env a calls = some r := by
  unfold Agent.updateTarget
  rw [if_neg hne]
  split
  · split <;> exact ⟨_, rfl⟩
  · exact ⟨_, rfl⟩

theorem Agent.updateTarget_memory (env : Agent.Env T A M Sch) (a : Agent T A M Sch)
    (calls : List Agent.ModelCall) (r : Agent.LearnResult T A M Sch)
    (h : Agent.updateTarget env a calls = some r) : r.agent.memory = a.memory := by
  unfold Agent.updateTarget at h
  split at h
  · simp at h
  · split at h
    · split at h <;> (simp only [Option.some.injEq] at h; subst h; rfl)
    · simp only [Option.some.injEq] at h; subst h; rfl

theorem Memory.Sample_fst (m : Memory T A) (n : Int) (perm : List Nat) :
    (m.Sample n perm).1 = m := by
  unfold Memory.Sample
  split <;> rfl

/-- No path through `Learn` changes the replay memory. -/
theorem Agent.Learn_memory (env : Agent.Env T A M Sch) (a : Agent T A M Sch) (perm : List Nat)
    (r : Agent.LearnResult T A M Sch) (h : Agent.Learn env a perm = some r) :
    r.agent.memory = a.memory := by
  unfold Agent.Learn at h
  split at h
  · simp only [Option.some.injEq] at h; subst h; rfl
  · split at h
    · simp at h
    · rename_i memory err hs
      have hm := Memory.Sample_fst a.memory a.batchSize perm
      rw [hs] at hm
      simp only [Option.some.injEq] at h; subst h; exact hm
    · rename_i memory batch hs
      have hm := Memory.Sample_fst a.memory a.batchSize perm
      rw [hs] at hm
      simp only at hm h
      split at h
      · simp only [Option.some.injEq] at h; subst h; exact hm
      · split at h
        · simp only [Option.some.injEq] at h; subst h; exact hm
        · split at h
          · simp only [Option.some.injEq] at h; subst h; exact hm
          · split at h
            · simp only [Option.some.injEq] at h; subst h; exact hm
            · have h2 := Agent.updateTarget_memory env _ _ r h
              exact h2.trans hm

/-- With a non-zero target interval and in-range sampling positions, `Learn` does not panic. -/
theorem Agent.Learn_isSome (env : Agent.Env T A M Sch) (a : Agent T A M Sch) (perm : List Nat)
    (hne : a.updateTargetSteps ≠ 0) (hperm : ∀ v ∈ perm, v < a.memory.Deque.length) :
    ∃ r, Agent.Learn env a perm = some r := by
  unfold Agent.Learn
  split
  · exact ⟨_, rfl⟩
  · rename_i hlen
    obtain ⟨out, hout, _, _⟩ := Memory.sampleLoop_spec a.memory a.batchSize perm 0 [] hperm
    have hs : a.memory.Sample a.batchSize perm = (a.memory, some (.ok ([] ++ out))) := by
      unfold Memory.Sample
      rw [if_neg hlen, hout]
      rfl
    rw [hs]
    simp only
    split
    · exact ⟨_, rfl⟩
    · split
      · exact ⟨_, rfl⟩
      · split
        · exact ⟨_, rfl⟩
        · split
          · exact ⟨_, rfl⟩
          · exact Agent.updateTarget_isSome env _ _ hne
/-- PreScore on a non-empty candidate set with a pending prior decision, once `Remember` and
`Learn` have returned: the plugin holds the agent left by `Learn` and the fresh state; the
call aborts with the error of `Learn`, or goes on to `Predict` on the fresh state. -/
theorem PreScore_pending {T M Sch : Type} (env : Agent.Env T Int M Sch)
    (n : DRLSchedulerPlugin T Int M Sch) (cycleState : Option T) (nodes : List String)
    (nextState : T) (perm : List Nat) (a1 : Agent T Int M Sch)
    (r : Agent.LearnResult T Int M Sch)
    (hnodes : nodes ≠ []) (hact : n.DQNargs.action ≠ -1)
    (hrem : n.agent.Remember
      (NewEvent n.DQNargs.state n.DQNargs.action n.DQNargs.reward nextState) = some a1)
    (hlearn : Agent.Learn env a1 perm = some r) :
    ∃ res, PreScore env n cycleState nodes nextState perm = some res ∧
      res.plugin = { n with agent := r.agent, DQNargs := { n.DQNargs with state := nextState } } ∧
      (∀ err, r.err = some err →
        res.outcome = PreScoreOutcome.aborted err ∧ res.cycleState = cycleState) := by
  have hlen : ¬ nodes.length = 0 := by
    intro h; exact hnodes (List.length_eq_zero.mp h)
  unfold PreScore
  rw [if_neg hlen]
  simp only [hact, ne_eq, not_false_eq_true, if_true, hrem, hlearn]
  cases herr : r.err with
  | some err =>
    refine ⟨_, rfl, rfl, ?_⟩
    intro err2 h2
    simp only [Option.some.injEq] at h2
    subst h2
    exact ⟨rfl, rfl⟩
  | none =>
    simp only
    split
    · exact ⟨_, rfl, rfl, by simp⟩
    · exact ⟨_, rfl, rfl, by simp⟩

/-- NewEvent fills the four fields of the transition from its arguments, in the order
`(state, action, reward, nextState)`, and leaves `i` at 0. -/
theorem NewEvent_eq {T A : Type} (state : T) (action : A) (reward : ℚ) (nextState : T) :
    NewEvent state action reward nextState =
      { NextState := nextState, State := state, Action := action, Reward := reward, i := 0 } :=
  rfl

/-- What `PreScore` does to the plugin, with the transition written as the `NewEvent` call
of the source.  With an empty candidate set the call returns `nil` and changes nothing.  With
a non-empty candidate set and `action = -1` the plugin after the call is the plugin before it
with `state` set to the queried vector.  With a non-empty candidate set and `action ≠ -1` the
call makes one `Remember` of the event, which does not panic; with a non-zero target interval
and `perm` a permutation the call does not panic, the memory after it is the memory after that
`Remember`, `state` is the queried vector and the rest of `DQNargs` and the services are
unchanged. -/
theorem PreScore_spec {T M Sch : Type} (env : Agent.Env T Int M Sch)
    (n : DRLSchedulerPlugin T Int M Sch) (cycleState : Option T) (nodes : List String)
    (nextState : T) (perm : List Nat) :
    (nodes = [] →
      PreScore env n cycleState nodes nextState perm =
        some { plugin := n, cycleState := cycleState,
               outcome := PreScoreOutcome.returned Status.nil }) ∧
    (nodes ≠ [] → n.DQNargs.action = -1 →
      ∃ res, PreScore env n cycleState nodes nextState perm = some res ∧
        res.plugin = { n with DQNargs := { n.DQNargs with state := nextState } }) ∧
    (∃ a1, n.agent.Remember
          (NewEvent n.DQNargs.state n.DQNargs.action n.DQNargs.reward nextState) = some a1 ∧
      a1.memory.Deque =
        (if n.agent.memory.Len + 1 > n.agent.hyper.BufferSize then
          (NewEvent n.DQNargs.state n.DQNargs.action n.DQNargs.reward nextState ::
            n.agent.memory.Deque).dropLast
         else NewEvent n.DQNargs.state n.DQNargs.action n.DQNargs.reward nextState ::
            n.agent.memory.Deque) ∧
      (1 ≤ n.agent.hyper.BufferSize →
        a1.memory.Deque.head? =
          some (NewEvent n.DQNargs.state n.DQNargs.action n.DQNargs.reward nextState)) ∧
      (nodes ≠ [] → n.DQNargs.action ≠ -1 → n.agent.updateTargetSteps ≠ 0 →
        perm.Perm (List.range a1.memory.Deque.length) →
        ∃ res, PreScore env n cycleState nodes nextState perm = some res ∧
          res.plugin.agent.memory = a1.memory ∧
          res.plugin.DQNargs = { n.DQNargs with state := nextState } ∧
          res.plugin.Services = n.Services)) := by
  refine ⟨?_, ?_, ?_⟩
  · intro h
    subst h
    rfl
  · intro hnodes hact
    have hlen : ¬ nodes.length = 0 := fun h => hnodes (List.length_eq_zero.mp h)
    unfold PreScore
    rw [if_neg hlen]
    simp only [hact, ne_eq, not_true_eq_false, if_false]
    split
    · exact ⟨_, rfl, rfl⟩
    · exact ⟨_, rfl, rfl⟩
  · have hrem := Agent.Remember_eq n.agent
      (NewEvent n.DQNargs.state n.DQNargs.action n.DQNargs.reward nextState)
    obtain ⟨a1, ha1⟩ : ∃ a1 : Agent T Int M Sch, a1 = { n.agent with memory :=
        { Deque := if n.agent.memory.Len + 1 > n.agent.hyper.BufferSize then
            (NewEvent n.DQNargs.state n.DQNargs.action n.DQNargs.reward nextState ::
              n.agent.memory.Deque).dropLast
          else NewEvent n.DQNargs.state n.DQNargs.action n.DQNargs.reward nextState ::
              n.agent.memory.Deque } } := ⟨_, rfl⟩
    rw [← ha1] at hrem
    have hdeque : a1.memory.Deque =
        (if n.agent.memory.Len + 1 > n.agent.hyper.BufferSize then
          (NewEvent n.DQNargs.state n.DQNargs.action n.DQNargs.reward nextState ::
            n.agent.memory.Deque).dropLast
         else NewEvent n.DQNargs.state n.DQNargs.action n.DQNargs.reward nextState ::
            n.agent.memory.Deque) := by rw [ha1]
    have hsteps : a1.updateTargetSteps = n.agent.updateTargetSteps := by rw [ha1]
    refine ⟨a1, hrem, hdeque, ?_, ?_⟩
    · intro hcap
      rw [hdeque]
      by_cases hgt : n.agent.memory.Len + 1 > n.agent.hyper.BufferSize
      · have hne : n.agent.memory.Deque ≠ [] := by
          intro hnil
          simp only [Memory.Len, hnil, List.length_nil] at hgt
          omega
        simp only [hgt, if_true, List.dropLast_cons_of_ne_nil hne, List.head?_cons]
      · simp only [hgt, if_false, List.head?_cons]
    · intro hnodes hact huts hperm
      have hin : ∀ v ∈ perm, v < a1.memory.Deque.length := fun v hv =>
        List.mem_range.mp (hperm.mem_iff.mp hv)
      obtain ⟨r, hr⟩ := Agent.Learn_isSome env a1 perm (hsteps ▸ huts) hin
      obtain ⟨res, hres, hplugin, _⟩ :=
        PreScore_pending env n cycleState nodes nextState perm a1 r hnodes hact hrem hr
      refine ⟨res, hres, ?_, ?_, ?_⟩
      · rw [hplugin]
        exact Agent.Learn_memory env a1 perm r hr
      · rw [hplugin]
      · rw [hplugin]

/-! ## NormalizeScore: missing label, and the aggregator with `append` assigned back -/

/-- For a pod without the `servicename` label and a score list on which the selection of
lines 99-118 does not panic (the list is non-empty and, when the agent exploits, some raw
score exceeds `-MaxInt64`), `NormalizeScore` returns a failure status and leaves the agent
(replay memory, step counter, models) and the services of the Reward Aggregator as they
were. -/
theorem NormalizeScore_missing_label (GetReward : T → List Service → Pod → ℚ)
    (n : DRLSchedulerPlugin T A M Sch) (pod : Pod) (scores : List NodeScore) (draw : ℚ)
    (raw : Nat)
    (hlabel : pod.Labels.lookup "servicename" = none)
    (hsel : ∃ s ∈ scores, draw < n.agent.epsilon ∨ s.Score > -MaxInt64) :
    ∃ n1 sc1 msg, NormalizeScore GetReward n pod scores draw raw =
        some (n1, sc1, Status.failure msg) ∧
      n1.agent = n.agent ∧ n1.Services = n.Services := by
  obtain ⟨s, hs, hcase⟩ := hsel
  by_cases hexp : draw < n.agent.epsilon
  · obtain ⟨i, node, _, h0, h1, _, hsel⟩ :=
      selectNode_explore n.agent scores draw raw hexp (List.ne_nil_of_mem hs)
    have hnode : getAt (scores.set i.toNat
          { node with Score := wrap64 ((maxLoop scores 0 (-MaxInt64) (-1)).1 + 5) }) i =
        some { node with Score := wrap64 ((maxLoop scores 0 (-MaxInt64) (-1)).1 + 5) } := by
      unfold getAt
      rw [if_pos h0]
      have hlt : i.toNat < scores.length := by omega
      simp [List.getElem?_set, hlt]
    rw [NormalizeScore_eq GetReward n pod scores draw raw _ _ _ _ hsel hnode, hlabel]
    exact ⟨_, _, _, rfl, rfl, rfl⟩
  · have hgt : ∃ s ∈ scores, s.Score > -MaxInt64 := by
      rcases hcase with h | h
      · exact absurd h hexp
      · exact ⟨s, hs, h⟩
    obtain ⟨node, hnode⟩ := maxLoop_snd_valid scores (-MaxInt64) (-1) hgt
    rw [NormalizeScore_eq GetReward n pod scores draw raw _ _ _ _
      (selectNode_exploit n.agent scores draw raw hexp) hnode, hlabel]
    exact ⟨_, _, _, rfl, rfl, rfl⟩

/-- An instance of `NormalizeScore_missing_label`: three nodes with raw scores `10, 3, 7`, an
exploiting agent and a pod that only carries the `rolename` label. -/
theorem NormalizeScore_missing_label_example :
    ∃ n1 sc1 msg, NormalizeScore exampleReward (examplePlugin 0) unlabelledPod
        (threeNodes 10 3 7) 0 0 = some (n1, sc1, Status.failure msg) ∧
      n1.agent = (examplePlugin 0).agent ∧ n1.Services = (examplePlugin 0).Services :=
  NormalizeScore_missing_label exampleReward (examplePlugin 0) unlabelledPod (threeNodes 10 3 7) 0 0
    (by decide) (by decide)

/-- The aggregator with the results of `append` assigned back (`recordReward`, as
`NormalizeScore` and `normalizeAll` read it): a run of successful calls, with any agent and
`DQNargs` at each call, from an aggregator with pairwise distinct service names.  The log of
the run lists the keys `(servicename, rolename)` of the pods in order, so the rewards recorded
under a key are as many as the calls for pods with that key.  A key without a call keeps its
entries; a key with an entry before the run has the rewards of its calls appended to that
entry in the order of the calls; and from the empty aggregator a key with calls holds exactly
one entry, whose history is the rewards of its calls in that order. -/
theorem normalizeAll_history (GetReward : T → List Service → Pod → ℚ)
    (Services Services1 : List Service) (cycles : List (Cycle T A M Sch))
    (log : List ((String × String) × ℚ)) (key : String × String)
    (hnd : (Services.map (fun s => s.serviceName)).Nodup)
    (hrun : normalizeAll GetReward Services cycles = some (Services1, log)) :
    log.map (fun e => e.1) = cycles.map (fun c => podKey c.pod) ∧
    (rewardsFor key log).length = cycles.countP (fun c => podKey c.pod == key) ∧
    (rewardsFor key log = [] →
      entries Services1 key.1 key.2 = entries Services key.1 key.2) ∧
    (∀ h t, entries Services key.1 key.2 = h :: t →
      entries Services1 key.1 key.2 = (h ++ rewardsFor key log) :: t) ∧
    (Services = [] → rewardsFor key log ≠ [] →
      entries Services1 key.1 key.2 = [rewardsFor key log]) := by
  obtain ⟨hkeys, hent⟩ := normalizeAll_spec GetReward cycles Services Services1 log hrun hnd
  refine ⟨hkeys, ?_, ?_, ?_, ?_⟩
  · have h1 : (rewardsFor key log).length = (log.map (fun e => e.1)).countP (fun k => k == key) := by
      unfold rewardsFor
      rw [List.length_map, ← List.countP_eq_length_filter, List.countP_map]
      rfl
    rw [h1, hkeys, List.countP_map]
    rfl
  · intro h
    rw [hent key, h]
    rfl
  · intro h t hbefore
    rw [hent key, hbefore, foldl_bump_cons]
  · intro hfresh hne
    rw [hent key, hfresh]
    exact foldl_bump_nil _ hne

/-- An instance of `normalizeAll_history`: with the results of `append` assigned back, three
calls for a pod of `("checkout", "api")` from the empty aggregator give one entry with a
history of length 3, in order, and the key `("checkout", "web")` has no entry. -/
theorem normalizeAll_history_example :
    normalizeAll exampleReward [] [exampleCycle, exampleCycle, exampleCycle] =
      some (exampleServices, exampleLog) ∧
    entries exampleServices "checkout" "api" = [rewardsFor ("checkout", "api") exampleLog] ∧
    rewardsFor ("checkout", "api") exampleLog = [0, 1, 2] ∧
    entries exampleServices "checkout" "web" = entries [] "checkout" "web" ∧
    entries [] "checkout" "web" = [] :=
  ⟨rfl,
   (normalizeAll_history exampleReward [] exampleServices
      [exampleCycle, exampleCycle, exampleCycle] exampleLog ("checkout", "api")
      (by decide) rfl).2.2.2.2 rfl (by decide),
   by decide,
   (normalizeAll_history exampleReward [] exampleServices
      [exampleCycle, exampleCycle, exampleCycle] exampleLog ("checkout", "web")
      (by decide) rfl).2.2.1 (by decide),
   rfl⟩

/-! ## The aggregator as written -/

/-- Lines 124-153 as written write nothing: when they do not panic, the services after them
are the services before them. -/
theorem recordRewardAsWritten_unchanged (Services out : List Service)
    (serviceName roleName : String) (reward : ℚ)
    (h : recordRewardAsWritten Services serviceName roleName reward = some out) :
    out = Services := by
  unfold recordRewardAsWritten at h
  simp only at h
  split at h
  · simp at h
  · split at h
    · simp at h
    · simp only [Option.some.injEq] at h
      exact h.symm

/-- Lines 124-153 as written panic on the empty aggregator: no service is found, the
discarded `append` leaves `len(n.Services)-1 = -1`, and `n.Services[-1]` is out of range. -/
theorem recordRewardAsWritten_nil (serviceName roleName : String) (reward : ℚ) :
    recordRewardAsWritten [] serviceName roleName reward = none := rfl

/-- With lines 124-153 as written, a returning `NormalizeScore` call leaves the services as
they were, and from the empty aggregator (the one `New` makes) no call returns `nil`. -/
theorem NormalizeScoreAsWritten_services (GetReward : T → List Service → Pod → ℚ)
    (n n1 : DRLSchedulerPlugin T A M Sch) (pod : Pod) (scores sc1 : List NodeScore) (draw : ℚ)
    (raw : Nat) (st : Status)
    (h : NormalizeScoreAsWritten GetReward n pod scores draw raw = some (n1, sc1, st)) :
    n1.Services = n.Services ∧ (n.Services = [] → st ≠ Status.nil) := by
  unfold NormalizeScoreAsWritten at h
  split at h
  · simp at h
  · simp only [Option.some.injEq, Prod.mk.injEq] at h
    obtain ⟨h1, _, h3⟩ := h
    subst h1; subst h3
    exact ⟨rfl, fun _ => by simp⟩
  · split at h
    · simp at h
    · simp only at h
      split at h
      · simp only [Option.some.injEq, Prod.mk.injEq] at h
        obtain ⟨h1, _, h3⟩ := h
        subst h1; subst h3
        exact ⟨rfl, fun _ => by simp⟩
      · rename_i serviceName hlab
        split at h
        · simp at h
        · rename_i services hrec
          have hsv := recordRewardAsWritten_unchanged _ _ _ _ _ hrec
          simp only at hsv
          split at h
          · simp at h
          · simp only [Option.some.injEq, Prod.mk.injEq] at h
            obtain ⟨h1, _, _⟩ := h
            subst h1
            refine ⟨hsv, ?_⟩
            intro hnil
            rw [hnil, recordRewardAsWritten_nil] at hrec
            simp at hrec

/-! # The claims -/

/-- C1: starting from an empty memory with capacity `BufferSize ≥ 0`, after every call of a
sequence of `Remember` calls (after the first `k` events, for every `k`) the run has not
panicked and the length of the memory is at most `BufferSize`. -/
theorem C1_Remember_length_le_BufferSize (a : Agent T A M Sch) (events : List (Event T A))
    (k : Nat) (hcap : 0 ≤ a.hyper.BufferSize) (hempty : a.memory = NewMemory) :
    ∃ a1, a.rememberAll (events.take k) = some a1 ∧ a1.memory.Len ≤ a.hyper.BufferSize := by
  have h0 : a.memory.Len ≤ a.hyper.BufferSize := by
    rw [hempty]; simpa [Memory.Len, NewMemory] using hcap
  obtain ⟨a1, h1, hh, hl⟩ := Agent.rememberAll_inv (events.take k) a h0
  exact ⟨a1, h1, hh ▸ hl⟩

/-- C1, witness: three events remembered by an empty agent of capacity 2. -/
theorem C1_witness :
    0 ≤ (exampleAgent 2 []).hyper.BufferSize ∧ (exampleAgent 2 []).memory = NewMemory ∧
    ∃ a1, (exampleAgent 2 []).rememberAll
        ([NewEvent 0 "node1" 0 1, NewEvent 1 "node1" 0 2, NewEvent 2 "node1" 0 3].take 3) = some a1 ∧
      a1.memory.Len ≤ (exampleAgent 2 []).hyper.BufferSize :=
  ⟨by decide, rfl, C1_Remember_length_le_BufferSize (exampleAgent 2 []) _ 3 (by decide) rfl⟩

/-- C2: eviction is first-in first-out.  On a memory holding exactly `BufferSize ≥ 1` events,
`Remember e` leaves `e` at the head followed by the previous contents without the event at the
tail; on a memory holding fewer than `BufferSize` events it only adds `e` at the head. -/
theorem C2_Remember_fifo (a : Agent T A M Sch) (e : Event T A) :
    (1 ≤ a.hyper.BufferSize → a.memory.Len = a.hyper.BufferSize →
      a.Remember e = some { a with memory := { Deque := e :: a.memory.Deque.dropLast } }) ∧
    (a.memory.Len < a.hyper.BufferSize →
      a.Remember e = some { a with memory := { Deque := e :: a.memory.Deque } }) := by
  constructor
  · intro h1 hfull
    obtain ⟨last, hlast⟩ := Memory.PopBack_PushFront a.memory e
    have hgt : (a.memory.PushFront e).Len > a.hyper.BufferSize := by
      simp only [Memory.Len, Memory.PushFront, List.length_cons] at hfull ⊢
      push_cast
      omega
    have hne : a.memory.Deque ≠ [] := by
      intro hnil
      simp only [Memory.Len, hnil, List.length_nil] at hfull
      omega
    unfold Agent.Remember
    simp only [hgt, if_true, hlast, List.dropLast_cons_of_ne_nil hne]
  · intro hlt
    have hgt : ¬ (a.memory.PushFront e).Len > a.hyper.BufferSize := by
      simp only [Memory.Len, Memory.PushFront, List.length_cons] at hlt ⊢
      push_cast
      omega
    unfold Agent.Remember
    rw [if_neg hgt]
    rfl

/-- C2, witness: capacity 2; a full memory evicts its tail, a memory of one event only grows. -/
theorem C2_witness :
    (exampleAgent 2 [NewEvent 1 "node1" 0 2, NewEvent 0 "node1" 0 1]).Remember (NewEvent 2 "node1" 0 3)
      = some (exampleAgent 2 [NewEvent 2 "node1" 0 3, NewEvent 1 "node1" 0 2]) ∧
    (exampleAgent 2 [NewEvent 0 "node1" 0 1]).Remember (NewEvent 1 "node1" 0 2)
      = some (exampleAgent 2 [NewEvent 1 "node1" 0 2, NewEvent 0 "node1" 0 1]) :=
  ⟨(C2_Remember_fifo (exampleAgent 2 [NewEvent 1 "node1" 0 2, NewEvent 0 "node1" 0 1])
      (NewEvent 2 "node1" 0 3)).1 (by decide) (by decide),
   (C2_Remember_fifo (exampleAgent 2 [NewEvent 0 "node1" 0 1]) (NewEvent 1 "node1" 0 2)).2
      (by decide)⟩

/-- C3: on a memory of length `m`, for `0 ≤ n ≤ m` and every permutation `perm` of `[0, m)`
drawn by the random source, `Sample n` does not panic, returns no error and returns exactly
`n` events; the positions recorded in their `i` fields are pairwise distinct, and each
returned event is the entry of the memory at the position recorded in its `i` field (with
that position written into `i`). -/
theorem C3_Sample_returns_n_distinct (m : Memory T A) (n : Int) (perm : List Nat)
    (h0 : 0 ≤ n) (hn : n ≤ m.Len) (hperm : perm.Perm (List.range m.Deque.length)) :
    ∃ events, (m.Sample n perm).2 = some (.ok events) ∧
      (events.length : Int) = n ∧
      (events.map (fun ev => ev.i)).Nodup ∧
      ∀ ev ∈ events, ∃ e0, m.At ev.i = some e0 ∧ ev = { e0 with i := ev.i } := by
  have hin : ∀ v ∈ perm, v < m.Deque.length := fun v hv =>
    List.mem_range.mp (hperm.mem_iff.mp hv)
  obtain ⟨out, hout, hmap, hall⟩ := Memory.sampleLoop_spec m n perm 0 [] hin
  refine ⟨out, ?_, ?_, ?_, hall⟩
  · unfold Memory.Sample
    rw [if_neg (by omega), hout]
    rfl
  · have hlen : perm.length = m.Deque.length := by
      rw [hperm.length_eq, List.length_range]
    have := congrArg List.length hmap
    simp only [List.length_map, List.length_take, Nat.cast_zero, sub_zero] at this
    rw [this]
    unfold Memory.Len at hn
    omega
  · rw [hmap]
    have hnd : perm.Nodup := hperm.nodup_iff.mpr (List.nodup_range _)
    exact (hnd.sublist (List.take_sublist _ _)).map (fun a b h => Int.ofNat.inj h)

/-- C3, witness: the memory of `TestMemory` (ten pushed events), `Sample(5)`. -/
theorem C3_witness :
    ∃ events, (testMemory.Sample 5 [3, 1, 4, 0, 9, 2, 6, 5, 8, 7]).2 = some (.ok events) ∧
      (events.length : Int) = 5 ∧
      (events.map (fun ev => ev.i)).Nodup ∧
      ∀ ev ∈ events, ∃ e0, testMemory.At ev.i = some e0 ∧ ev = { e0 with i := ev.i } :=
  C3_Sample_returns_n_distinct testMemory 5 [3, 1, 4, 0, 9, 2, 6, 5, 8, 7]
    (by decide) (by decide) (by decide)

/-- C4: `Sample n` on a memory of length `m < n` returns an error and no events, and an error
is returned only then; in every case the memory after the call is the memory before it. -/
theorem C4_Sample_error_iff (m : Memory T A) (n : Int) (perm : List Nat) :
    (m.Len < n → ∃ msg, m.Sample n perm = (m, some (.error msg))) ∧
    (∀ msg, (m.Sample n perm).2 = some (.error msg) → m.Len < n) ∧
    (m.Sample n perm).1 = m := by
  refine ⟨?_, ?_, ?_⟩
  · intro h
    exact ⟨_, by unfold Memory.Sample; rw [if_pos h]⟩
  · intro msg h
    by_contra hlt
    unfold Memory.Sample at h
    rw [if_neg hlt] at h
    cases hs : Memory.sampleLoop m n 0 perm [] <;> simp [hs] at h
  · unfold Memory.Sample
    split <;> rfl

/-- C4, witness: the memory of `TestMemory` (ten events), `Sample(11)`. -/
theorem C4_witness :
    (∃ msg, testMemory.Sample 11 [] = (testMemory, some (.error msg))) ∧
    (testMemory.Len < 11) :=
  ⟨(C4_Sample_error_iff testMemory 11 []).1 (by decide),
   (C4_Sample_error_iff testMemory 11 []).2.1 "queue size is less than batch size" rfl⟩

/-- C5: a fresh agent (step counter 0, both models at version 0) with `updateTargetSteps`
100 and `batchSize` 1 holds one event and learns once.  The call succeeds, issues one
`Predict`, one `FitBatch` and one `CloneLearnablesTo`, leaves the step counter at 0, and the
target model is changed to the version of the online model. -/
theorem C5_Learn_first_step_clones :
    ∃ r, Agent.Learn exampleEnv (exampleAgent 10 [NewEvent 0 "node1" 0 1]) [0] = some r ∧
      r.err = none ∧
      r.calls = [Agent.ModelCall.predict, Agent.ModelCall.fit, Agent.ModelCall.clone] ∧
      r.agent.steps = 0 ∧
      (exampleAgent 10 [NewEvent 0 "node1" 0 1]).updateTargetSteps = 100 ∧
      (exampleAgent 10 [NewEvent 0 "node1" 0 1]).TargetPolicy = 0 ∧
      r.agent.Policy = 1 ∧ r.agent.TargetPolicy = 1 :=
  ⟨_, rfl, rfl, rfl, rfl, rfl, rfl, rfl, rfl⟩

/-- C6: with fewer events in memory than `batchSize`, `Learn` returns `nil`, leaves the whole
agent (step counter, epsilon, memory, online and target model) as it was and issues no
`Predict`, `FitBatch` or `CloneLearnablesTo` call. -/
theorem C6_Learn_noop_below_batchSize (env : Agent.Env T A M Sch) (a : Agent T A M Sch)
    (perm : List Nat) (h : a.memory.Len < a.batchSize) :
    Agent.Learn env a perm = some { agent := a, err := none, calls := [] } := by
  unfold Agent.Learn
  rw [if_pos h]

/-- C6, witness: an empty memory and `batchSize = 1`. -/
theorem C6_witness :
    (exampleAgent 10 []).memory.Len < (exampleAgent 10 []).batchSize ∧
    Agent.Learn exampleEnv (exampleAgent 10 []) [] =
      some { agent := exampleAgent 10 [], err := none, calls := [] } :=
  ⟨by decide, C6_Learn_noop_below_batchSize exampleEnv (exampleAgent 10 []) [] (by decide)⟩

/-- C9: a pod without the `servicename` label, one node whose raw score is the least `int64`,
and an exploiting agent.  No score exceeds the start value `-MaxInt64`, so lines 99-117 leave
`maxIndex = -1`, `scores[maxIndex]` of line 118 is out of range, and the call panics before
the label check of line 120: no status is returned, under either reading of lines 124-153. -/
theorem C9_missing_label_panics :
    unlabelledPod.Labels.lookup "servicename" = none ∧
    selectNode (examplePlugin 0).agent [{ Name := "node-a", Score := -(2 ^ 63) }] 0 0 =
      some (.ok ([{ Name := "node-a", Score := -(2 ^ 63) }], -MaxInt64, -1)) ∧
    getAt [({ Name := "node-a", Score := -(2 ^ 63) } : NodeScore)] (-1) = none ∧
    NormalizeScore exampleReward (examplePlugin 0) unlabelledPod
      [{ Name := "node-a", Score := -(2 ^ 63) }] 0 0 = none ∧
    NormalizeScoreAsWritten exampleReward (examplePlugin 0) unlabelledPod
      [{ Name := "node-a", Score := -(2 ^ 63) }] 0 0 = none :=
  ⟨by decide, rfl, rfl, rfl, rfl⟩

/-- C10: lines 124-153 as written, on a pod of `("checkout", "api")` over three nodes.  From
the aggregator `New` makes (no services) the lines panic, and so does the first
`NormalizeScore` call: nothing is recorded.  From an aggregator that already holds the key
with an empty history the call returns `nil` and the history of the key is still empty. -/
theorem C10_aggregator_records_nothing :
    (examplePlugin 1).Services = [] ∧
    recordRewardAsWritten (examplePlugin 1).Services "checkout" "api" 0 = none ∧
    NormalizeScoreAsWritten exampleReward (examplePlugin 1) checkoutPod (threeNodes 10 3 7) 0 1
      = none ∧
    entries seededPlugin.Services "checkout" "api" = [[]] ∧
    (∃ n1 sc1, NormalizeScoreAsWritten exampleReward seededPlugin checkoutPod
        (threeNodes 10 3 7) 0 1 = some (n1, sc1, Status.nil) ∧
      entries n1.Services "checkout" "api" = [[]]) :=
  ⟨rfl, rfl, rfl, rfl, _, _, rfl, rfl⟩

/-- C11: reward attribution is one cycle delayed in `PreScore`.  With an empty candidate set
the call returns `nil` and changes nothing.  With a non-empty candidate set and
`action = -1` (first cycle) the call does not panic and the plugin after it is the plugin
before it with `state` set to the freshly queried vector: nothing is inserted into memory.
With a non-empty candidate set and `action ≠ -1` (a later cycle) the call makes one
`Remember` of the transition whose `State` is the prior state, whose `Action` is the prior
action, whose `Reward` is the prior reward and whose `NextState` is the freshly queried
vector; the `Remember` does not panic and leaves the transition followed by the old contents
(minus their last element past the capacity; the transition is at the head for a capacity of
at least 1); with a non-zero target interval (`New` sets 100) and `perm` a permutation as
`rand.Perm` returns, the call does not panic, the memory after it is the memory after that
`Remember`, `state` is the fresh vector and the rest of `DQNargs` and the services are
unchanged. -/
theorem C11_PreScore_delayed_reward {T M Sch : Type} (env : Agent.Env T Int M Sch)
    (n : DRLSchedulerPlugin T Int M Sch) (cycleState : Option T) (nodes : List String)
    (nextState : T) (perm : List Nat) :
    (nodes = [] →
      PreScore env n cycleState nodes nextState perm =
        some { plugin := n, cycleState := cycleState,
               outcome := PreScoreOutcome.returned Status.nil }) ∧
    (nodes ≠ [] → n.DQNargs.action = -1 →
      ∃ res, PreScore env n cycleState nodes nextState perm = some res ∧
        res.plugin = { n with DQNargs := { n.DQNargs with state := nextState } }) ∧
    (∃ a1, n.agent.Remember
          ({ State := n.DQNargs.state, Action := n.DQNargs.action, Reward := n.DQNargs.reward, NextState := nextState, i := 0 } : Event T Int) = some a1 ∧
      a1.memory.Deque =
        (if n.agent.memory.Len + 1 > n.agent.hyper.BufferSize then
          (({ State := n.DQNargs.state, Action := n.DQNargs.action, Reward := n.DQNargs.reward, NextState := nextState, i := 0 } : Event T Int) ::
            n.agent.memory.Deque).dropLast
         else ({ State := n.DQNargs.state, Action := n.DQNargs.action, Reward := n.DQNargs.reward, NextState := nextState, i := 0 } : Event T Int) ::
            n.agent.memory.Deque) ∧
      (1 ≤ n.agent.hyper.BufferSize →
        a1.memory.Deque.head? =
          some ({ State := n.DQNargs.state, Action := n.DQNargs.action, Reward := n.DQNargs.reward, NextState := nextState, i := 0 } : Event T Int)) ∧
      (nodes ≠ [] → n.DQNargs.action ≠ -1 → n.agent.updateTargetSteps ≠ 0 →
        perm.Perm (List.range a1.memory.Deque.length) →
        ∃ res, PreScore env n cycleState nodes nextState perm = some res ∧
          res.plugin.agent.memory = a1.memory ∧
          res.plugin.DQNargs = { n.DQNargs with state := nextState } ∧
          res.plugin.Services = n.Services)) := by
  exact PreScore_spec env n cycleState nodes nextState perm

/-- C11, witness: an empty candidate set; a first cycle (`action = -1`) over one node; a later
cycle (`action = 1`, prior state 4, prior reward 2, fresh vector 5) over one node, after which
the memory holds the one transition with state 4, action 1, reward 2 and next state 5. -/
theorem C11_witness :
    PreScore prescoreEnv (prescorePlugin 1 []) none [] 5 [0] =
      some { plugin := prescorePlugin 1 [], cycleState := none,
             outcome := PreScoreOutcome.returned Status.nil } ∧
    (∃ res, PreScore prescoreEnv (prescorePlugin (-1) []) none ["node-a"] 5 [0] = some res ∧
      res.plugin = { prescorePlugin (-1) [] with
        DQNargs := { (prescorePlugin (-1) []).DQNargs with state := 5 } }) ∧
    (∃ res, PreScore prescoreEnv (prescorePlugin 1 []) none ["node-a"] 5 [0] = some res ∧
      res.plugin.agent.memory =
        { Deque := [{ NextState := 5, State := 4, Action := 1, Reward := 2, i := 0 }] } ∧
      res.plugin.DQNargs = { (prescorePlugin 1 []).DQNargs with state := 5 } ∧
      res.plugin.Services = (prescorePlugin 1 []).Services) := by
  refine ⟨(C11_PreScore_delayed_reward prescoreEnv (prescorePlugin 1 []) none [] 5 [0]).1 rfl,
    (C11_PreScore_delayed_reward prescoreEnv (prescorePlugin (-1) []) none ["node-a"] 5 [0]).2.1
      (by decide) (by decide), ?_⟩
  obtain ⟨a1, h1, h2, _, h4⟩ :=
    (C11_PreScore_delayed_reward prescoreEnv (prescorePlugin 1 []) none ["node-a"] 5 [0]).2.2
  obtain ⟨res, hres, hmem, hargs, hsv⟩ :=
    h4 (by decide) (by decide) (by decide) (by rw [h2]; decide)
  have ha1 : a1.memory =
      { Deque := [{ NextState := 5, State := 4, Action := 1, Reward := 2, i := 0 }] } := by
    have h3 : a1.memory.Deque =
        [{ NextState := 5, State := 4, Action := 1, Reward := 2, i := 0 }] := by
      rw [h2]; decide
    cases hm : a1.memory
    rw [hm] at h3
    simpa using h3
  exact ⟨res, hres, hmem.trans ha1, hargs, hsv⟩

/-- C12 (as amended): when `Learn` returns an error inside `PreScore` (non-empty candidate
set, pending prior decision), the call aborts with that error and stores no prediction; the
pending transition is already in the replay memory: the memory after the call is the memory
after the `Remember` of that transition, and `state` is already the fresh vector. -/
theorem C12_failed_Learn_keeps_transition {T M Sch : Type} (env : Agent.Env T Int M Sch)
    (n : DRLSchedulerPlugin T Int M Sch) (cycleState : Option T) (nodes : List String)
    (nextState : T) (perm : List Nat) (a1 : Agent T Int M Sch)
    (r : Agent.LearnResult T Int M Sch) (err : String)
    (hnodes : nodes ≠ []) (hact : n.DQNargs.action ≠ -1)
    (hrem : n.agent.Remember
      (NewEvent n.DQNargs.state n.DQNargs.action n.DQNargs.reward nextState) = some a1)
    (hlearn : Agent.Learn env a1 perm = some r) (herr : r.err = some err) :
    ∃ res, PreScore env n cycleState nodes nextState perm = some res ∧
      res.outcome = PreScoreOutcome.aborted err ∧ res.cycleState = cycleState ∧
      res.plugin.agent.memory = a1.memory ∧
      res.plugin.agent.memory.Deque =
        (if n.agent.memory.Len + 1 > n.agent.hyper.BufferSize then
          (NewEvent n.DQNargs.state n.DQNargs.action n.DQNargs.reward nextState ::
            n.agent.memory.Deque).dropLast
         else NewEvent n.DQNargs.state n.DQNargs.action n.DQNargs.reward nextState ::
            n.agent.memory.Deque) ∧
      res.plugin.DQNargs.state = nextState := by
  obtain ⟨res, hres, hplugin, hab⟩ :=
    PreScore_pending env n cycleState nodes nextState perm a1 r hnodes hact hrem hlearn
  obtain ⟨hout, hcs⟩ := hab err herr
  have hmem : res.plugin.agent.memory = a1.memory := by
    rw [hplugin]
    exact Agent.Learn_memory env a1 perm r hlearn
  refine ⟨res, hres, hout, hcs, hmem, ?_, ?_⟩
  · rw [hmem]
    have h := Agent.Remember_eq n.agent
      (NewEvent n.DQNargs.state n.DQNargs.action n.DQNargs.reward nextState)
    rw [hrem] at h
    simp only [Option.some.injEq] at h
    rw [h]
  · rw [hplugin]

/-- C12, witness: `Predict` fails in the learning step of a later cycle over one node, on an
empty memory with `batchSize = 1`. -/
theorem C12_witness :
    ∃ res, PreScore failingEnv (prescorePlugin 1 []) none ["node-a"] 5 [0] = some res ∧
      res.outcome = PreScoreOutcome.aborted "shape mismatch" ∧ res.cycleState = none ∧
      res.plugin.agent.memory = (prescoreAgent [NewEvent 4 1 2 5]).memory ∧
      res.plugin.agent.memory.Deque =
        (if (prescorePlugin 1 []).agent.memory.Len + 1 > (prescorePlugin 1 []).agent.hyper.BufferSize
         then (NewEvent 4 1 2 5 :: (prescorePlugin 1 []).agent.memory.Deque).dropLast
         else NewEvent 4 1 2 5 :: (prescorePlugin 1 []).agent.memory.Deque) ∧
      res.plugin.DQNargs.state = 5 :=
  C12_failed_Learn_keeps_transition failingEnv (prescorePlugin 1 []) none ["node-a"] 5 [0]
    (prescoreAgent [NewEvent 4 1 2 5])
    { agent := prescoreAgent [NewEvent 4 1 2 5], err := some "shape mismatch",
      calls := [Agent.ModelCall.predict] }
    "shape mismatch" (by decide) (by decide) rfl rfl rfl

/-- C12, counterexample: a later cycle over one node on an empty memory, with a model whose
`Predict` fails.  `Learn` returns the prediction error and `PreScore` aborts with it, yet the
memory, empty before the call, holds the pending transition after it. -/
theorem C12_counterexample :
    (Agent.Learn failingEnv (prescoreAgent [NewEvent 4 1 2 5]) [0]).map (fun r => r.err) =
      some (some "shape mismatch") ∧
    (prescorePlugin 1 []).agent.memory.Deque = [] ∧
    ∃ res, PreScore failingEnv (prescorePlugin 1 []) none ["node-a"] 5 [0] = some res ∧
      res.outcome = PreScoreOutcome.aborted "shape mismatch" ∧
      res.plugin.agent.memory.Deque = [NewEvent 4 1 2 5] ∧
      res.plugin.agent.memory ≠ (prescorePlugin 1 []).agent.memory :=
  ⟨rfl, rfl, _, rfl, rfl, rfl, by decide⟩

/-- C13: three calls of `NormalizeScore` on a pod with both labels and a non-empty score list
that panic.  With raw scores `0, 0, 0` and an exploiting agent the selection leaves
`maxScore = 0` and the rescaling divides by zero.  With raw scores `-5, -7, -9` and an
exploring agent the bonus leaves `maxScore = 0` and the rescaling divides by zero.  With
three raw scores `-2^63` and an exploiting agent no score exceeds the start value,
`maxIndex` stays `-1` and `scores[maxIndex]` is out of range. -/
theorem C13_NormalizeScore_panics :
    (selectNode (examplePlugin 0).agent (threeNodes 0 0 0) 0 0 =
        some (.ok (threeNodes 0 0 0, 0, 0)) ∧
      rescale (threeNodes 0 0 0) 0 = none ∧
      NormalizeScore exampleReward (examplePlugin 0) checkoutPod (threeNodes 0 0 0) 0 0 = none) ∧
    (selectNode (examplePlugin 1).agent (threeNodes (-5) (-7) (-9)) 0 1 =
        some (.ok (threeNodes (-5) 0 (-9), 0, 1)) ∧
      NormalizeScore exampleReward (examplePlugin 1) checkoutPod (threeNodes (-5) (-7) (-9)) 0 1
        = none) ∧
    (selectNode (examplePlugin 0).agent (threeNodes (-(2 ^ 63)) (-(2 ^ 63)) (-(2 ^ 63))) 0 0 =
        some (.ok (threeNodes (-(2 ^ 63)) (-(2 ^ 63)) (-(2 ^ 63)), -MaxInt64, -1)) ∧
      getAt (threeNodes (-(2 ^ 63)) (-(2 ^ 63)) (-(2 ^ 63))) (-1) = none ∧
      NormalizeScore exampleReward (examplePlugin 0) checkoutPod
        (threeNodes (-(2 ^ 63)) (-(2 ^ 63)) (-(2 ^ 63))) 0 0 = none) :=
  ⟨⟨rfl, rfl, rfl⟩, ⟨rfl, rfl⟩, ⟨rfl, rfl, rfl⟩⟩

end DRLScheduler
